import Mathlib

/-!
Shallow embedding of `xnat_canvas_integration.py`: the Canvas/XNAT
reconciliation engine (`IntegrationManager`, `XNATIntegration`,
`CanvasIntegration`).

The external services are modelled by an `Oracle` deciding, per API call,
whether the HTTP request raises a transport exception or completes with a
status code.  The payload returned by a completed request is read off the
current external state (`XnatState`), and successful writes (verify PUT,
enable PUT, add-to-project PUT, create-project POST) update that state.
A run carries the manager's counters, the list of archive API calls made
(`trace`) and the log-file lines emitted (`log`).  An uncaught Python
exception is an `Except.error`, carrying the state at the moment of the
raise (the log file and external side effects up to that point persist).
-/

namespace XCI

/-- A Canvas course: the `{id, name}` pair read from the course list. -/
structure Course where
  id : Nat
  name : String
  deriving DecidableEq

/-- A Canvas participant record. `login_id = none` models the `'login_id'`
key being absent from the JSON object; `some ""` is an empty login.
`email = none` models a JSON `null` email (falsy in Python, like `""`). -/
structure Participant where
  login_id : Option String
  email : Option String
  name : String
  deriving DecidableEq

/-- External (XNAT-side) state: account directory, per-account flags,
per-project membership (project keyed by Canvas course id), project ids. -/
structure XnatState where
  users : List String
  verified : String → Bool
  enabled : String → Bool
  members : Nat → List String
  projects : List String

/-- Canvas-side data, immutable within a run. -/
structure CanvasState where
  courses : List Course
  participants : Nat → List Participant

/-- An archive API request, as recorded in the run trace. -/
inductive ApiCall where
  | acquireToken
  | listProjects
  | listUsers
  | createProject (ID secondary_ID name : String)
  | checkVerified (login : String)
  | putVerify (login : String)
  | checkEnabled (login : String)
  | putEnable (login : String)
  | listProjectUsers (project : Nat)
  | addUser (project : Nat) (role : String) (login : String) (email : Option String)
  | closeSession
  deriving DecidableEq

/-- A log-file line, identified by its source statement and severity. -/
inductive LogEvent where
  | apiError (code : Nat)
  | pendingWarning (name : String)
  | infoVerified (login : String)
  | infoEnabled (login : String)
  | infoAdded (login : String) (project : Nat)
  | errorAddFail (login : String) (project : Nat)
  | infoCreating (ID name : String)
  | infoStartedCourses (n : Nat)
  | infoUserList (n : Nat)
  | summary (processed verified enabled added : Nat)
  deriving DecidableEq

/-- An uncaught Python exception terminating the run. -/
inductive PyErr where
  | requestExn (call : ApiCall)
  | keyError
  | lenOfNone
  | jsonError
  | indexError
  deriving DecidableEq

/-- Outcome of one HTTP request: a raised transport exception, or a
completed response with a status code. -/
inductive CallRes where
  | exn
  | status (code : Nat)
  deriving DecidableEq

/-- Failure-injection oracle: how each archive request behaves.
`projectsParses` is whether `response.json()` succeeds on the
`/data/projects` response. -/
structure Oracle where
  token : CallRes
  projects : CallRes
  projectsParses : Bool
  users : CallRes
  createProject : String → CallRes
  checkVerified : String → CallRes
  putVerify : String → CallRes
  checkEnabled : String → CallRes
  putEnable : String → CallRes
  projectUsers : Nat → CallRes
  addUser : Nat → String → CallRes
  close : CallRes

/-- Full run state: external XNAT state, manager counters, session flag,
archive request trace, log lines. -/
structure RunState where
  xnat : XnatState
  hasToken : Bool
  processed : Nat
  verified_count : Nat
  enabled_count : Nat
  added_to_project_count : Nat
  trace : List ApiCall
  log : List LogEvent

/-- `requests.Response.ok`: status below 400. -/
def respOk (s : Nat) : Bool := decide (s < 400)

/-- `_request`/`_init_request` log an API error for any status outside 200/204. -/
def logIfError (s : Nat) (log : List LogEvent) : List LogEvent :=
  if s = 200 ∨ s = 204 then log else log ++ [LogEvent.apiError s]

/-- Record a completed request in the trace and apply the wrapper's error log. -/
def pushCall (st : RunState) (c : ApiCall) (s : Nat) : RunState :=
  { st with trace := st.trace ++ [c], log := logIfError s st.log }

/-- Python truthiness of `not x` for `x : None | bool`. -/
def pyNot : Option Bool → Bool
  | none => true
  | some b => !b

/-- Whether `needle` starts the character list `hay` (Python prefix test). -/
def startsWithChars : List Char → List Char → Bool
  | [], _ => true
  | _ :: _, [] => false
  | n :: ns, h :: hs => n = h && startsWithChars ns hs

/-- Whether `needle` occurs as a contiguous sublist of `hay`. -/
def hasSubChars (needle : List Char) : List Char → Bool
  | [] => needle.isEmpty
  | h :: hs => startsWithChars needle (h :: hs) || hasSubChars needle hs

/-- Python's substring test `needle in hay` on strings. -/
def pyInStr (needle hay : String) : Bool := hasSubChars needle.toList hay.toList

/-- The role expression at line 235 (`XNATIntegration.add_user_to_project`):
`"member" if email and "student" not in email else "collaborator"`. -/
def role_in_add_user_to_project : Option String → String
  | none => "collaborator"
  | some e => if e != "" && !(pyInStr "student" e) then "member" else "collaborator"

/-- The role expression at line 312 (`IntegrationManager.process_participant`),
textually identical to the one at line 235. -/
def role_in_process_participant : Option String → String
  | none => "collaborator"
  | some e => if e != "" && !(pyInStr "student" e) then "member" else "collaborator"

/-- Python `list.index` (first index of `a`; returns the length when absent,
in which case the subsequent subscript raises, like Python's `ValueError`). -/
def listIndexOf (a : Nat) : List Nat → Nat
  | [] => 0
  | x :: xs => if x = a then 0 else listIndexOf a xs + 1

/-- Set an account's verified flag (server effect of a successful verify PUT). -/
def XnatState.setVerified (x : XnatState) (login : String) : XnatState :=
  { x with verified := fun l => if l = login then true else x.verified l }

/-- Set an account's enabled flag (server effect of a successful enable PUT). -/
def XnatState.setEnabled (x : XnatState) (login : String) : XnatState :=
  { x with enabled := fun l => if l = login then true else x.enabled l }

/-- Add a login to a project's membership (server effect of a successful add PUT). -/
def XnatState.addMember (x : XnatState) (project : Nat) (login : String) : XnatState :=
  { x with members := fun c => if c = project then x.members c ++ [login] else x.members c }

/-- Result of a fragment of the run: normal return, or an uncaught
exception together with the state at the raise. -/
abbrev XRes (α : Type) := Except (PyErr × RunState) (α × RunState)

/-- `XNATIntegration.get_user_token` (lines 125-134): POST `/data/JSESSION`;
on `response.ok` store the session cookie, otherwise leave the token unset. -/
def get_user_token (o : Oracle) (st : RunState) : Except (PyErr × RunState) RunState :=
  match o.token with
  | .exn => .error (.requestExn .acquireToken, st)
  | .status s =>
      let st := pushCall st .acquireToken s
      if respOk s then .ok { st with hasToken := true } else .ok st

/-- `CanvasIntegration.get_canvas_courses` (lines 38-49): the id list and the
name list extracted from the course-list response. -/
def get_canvas_courses (canvas : CanvasState) : List Nat × List String :=
  (canvas.courses.map Course.id, canvas.courses.map Course.name)

/-- `XNATIntegration.get_project_ids_list` (lines 147-156): GET `/data/projects`,
`response.json()` unconditionally (raising if the body is not JSON), then the
`ResultSet.Result[].ID` strings — the real list on a 200, an empty extraction
from an error body otherwise. -/
def get_project_ids_list (o : Oracle) (st : RunState) : XRes (List String) :=
  match o.projects with
  | .exn => .error (.requestExn .listProjects, st)
  | .status s =>
      let st := pushCall st .listProjects s
      if o.projectsParses then
        if s = 200 then .ok (st.xnat.projects, st) else .ok ([], st)
      else .error (.jsonError, st)

/-- `XNATIntegration.get_users_in_xnat` (lines 136-145): GET `/xapi/users`;
the user list on `response.ok`, Python `None` otherwise. -/
def get_users_in_xnat (o : Oracle) (st : RunState) : XRes (Option (List String)) :=
  match o.users with
  | .exn => .error (.requestExn .listUsers, st)
  | .status s =>
      let st := pushCall st .listUsers s
      if respOk s then .ok (some st.xnat.users, st) else .ok (none, st)

/-- The minimal project descriptor serialized by `create_xml`. -/
structure ProjectXml where
  ID : String
  secondary_ID : String
  name : String
  deriving DecidableEq

/-- `IntegrationManager.create_xml` (lines 261-282): descriptor with `ID` and
`secondary_ID` both the f-string of the course id, and `name` the course name. -/
def create_xml (course_id : Nat) (course_name : String) : ProjectXml :=
  { ID := toString course_id, secondary_ID := toString course_id, name := course_name }

/-- `XNATIntegration.create_project` (lines 158-169): POST the descriptor;
on a 200 the server registers the new project id; on any other status the
failure is printed and the caller continues. -/
def create_project (o : Oracle) (xml : ProjectXml) (st : RunState) :
    Except (PyErr × RunState) RunState :=
  match o.createProject xml.ID with
  | .exn => .error (.requestExn (.createProject xml.ID xml.secondary_ID xml.name), st)
  | .status s =>
      let st := pushCall st (.createProject xml.ID xml.secondary_ID xml.name) s
      if s = 200 then
        .ok { st with xnat := { st.xnat with projects := st.xnat.projects ++ [xml.ID] } }
      else .ok st

/-- `XNATIntegration.check_user_verified_in_xnat` (lines 171-181): the
verified flag on `response.ok`, Python `None` otherwise. -/
def check_user_verified_in_xnat (o : Oracle) (login : String) (st : RunState) :
    XRes (Option Bool) :=
  match o.checkVerified login with
  | .exn => .error (.requestExn (.checkVerified login), st)
  | .status s =>
      let st := pushCall st (.checkVerified login) s
      if respOk s then .ok (some (st.xnat.verified login), st) else .ok (none, st)

/-- `XNATIntegration.verify_user_in_xnat` (lines 183-190): PUT
`/verified/true`; returns `status == 200`, the server applying the write
exactly on success. -/
def verify_user_in_xnat (o : Oracle) (login : String) (st : RunState) : XRes Bool :=
  match o.putVerify login with
  | .exn => .error (.requestExn (.putVerify login), st)
  | .status s =>
      let st := pushCall st (.putVerify login) s
      if s = 200 then .ok (true, { st with xnat := st.xnat.setVerified login })
      else .ok (false, st)

/-- `XNATIntegration.check_user_enabled_in_xnat` (lines 192-202). -/
def check_user_enabled_in_xnat (o : Oracle) (login : String) (st : RunState) :
    XRes (Option Bool) :=
  match o.checkEnabled login with
  | .exn => .error (.requestExn (.checkEnabled login), st)
  | .status s =>
      let st := pushCall st (.checkEnabled login) s
      if respOk s then .ok (some (st.xnat.enabled login), st) else .ok (none, st)

/-- `XNATIntegration.enable_user_in_xnat` (lines 204-211). -/
def enable_user_in_xnat (o : Oracle) (login : String) (st : RunState) : XRes Bool :=
  match o.putEnable login with
  | .exn => .error (.requestExn (.putEnable login), st)
  | .status s =>
      let st := pushCall st (.putEnable login) s
      if s = 200 then .ok (true, { st with xnat := st.xnat.setEnabled login })
      else .ok (false, st)

/-- `XNATIntegration.get_user_project_data` (lines 213-224): the project's
member logins on `response.ok`, the empty list otherwise. -/
def get_user_project_data (o : Oracle) (project : Nat) (st : RunState) :
    XRes (List String) :=
  match o.projectUsers project with
  | .exn => .error (.requestExn (.listProjectUsers project), st)
  | .status s =>
      let st := pushCall st (.listProjectUsers project) s
      if respOk s then .ok (st.xnat.members project, st) else .ok ([], st)

/-- `XNATIntegration.close_connections` (lines 239-243). -/
def close_connections (o : Oracle) (st : RunState) : Except (PyErr × RunState) RunState :=
  match o.close with
  | .exn => .error (.requestExn .closeSession, st)
  | .status s => .ok (pushCall st .closeSession s)

/-- The verification check-then-act block of `process_participant`
(lines 300-303): query the verified flag; on a falsy answer (flag false, or
failed check returning `None`) issue the verify PUT, and on its success log
and increment `verified_count`. -/
def verifiedStage (o : Oracle) (login_id : String) (st : RunState) :
    Except (PyErr × RunState) RunState :=
  match check_user_verified_in_xnat o login_id st with
  | .error e => .error e
  | .ok (v, st) =>
    if pyNot v then
      match verify_user_in_xnat o login_id st with
      | .error e => .error e
      | .ok (b, st) =>
        if b then
          .ok { st with log := st.log ++ [.infoVerified login_id],
                        verified_count := st.verified_count + 1 }
        else .ok st
    else .ok st

/-- The enablement check-then-act block of `process_participant`
(lines 305-308). -/
def enabledStage (o : Oracle) (login_id : String) (st : RunState) :
    Except (PyErr × RunState) RunState :=
  match check_user_enabled_in_xnat o login_id st with
  | .error e => .error e
  | .ok (en, st) =>
    if pyNot en then
      match enable_user_in_xnat o login_id st with
      | .error e => .error e
      | .ok (b, st) =>
        if b then
          .ok { st with log := st.log ++ [.infoEnabled login_id],
                        enabled_count := st.enabled_count + 1 }
        else .ok st
    else .ok st

/-- The membership check-then-act block of `process_participant`
(lines 310-318): if the login is not in the membership snapshot, derive the
role from the email and PUT the add request inline; on a 200 log and
increment `added_to_project_count`, otherwise log an error and continue. -/
def membershipStage (o : Oracle) (email : Option String) (project_id : Nat)
    (project_users : List String) (login_id : String) (st : RunState) :
    Except (PyErr × RunState) RunState :=
  if login_id ∈ project_users then .ok st
  else
    let role := role_in_process_participant email
    match o.addUser project_id login_id with
    | .exn => .error (.requestExn (.addUser project_id role login_id email), st)
    | .status s =>
      let st := pushCall st (.addUser project_id role login_id email) s
      if s = 200 then
        .ok { st with
              xnat := st.xnat.addMember project_id login_id,
              log := st.log ++ [.infoAdded login_id project_id],
              added_to_project_count := st.added_to_project_count + 1 }
      else
        .ok { st with log := st.log ++ [.errorAddFail login_id project_id] }

/-- `IntegrationManager.process_participant` (lines 284-318): increment
`processed`; skip (with a warning) on an empty login; then the verification,
enablement and membership check-then-act blocks in order. -/
def process_participant (o : Oracle) (participant : Participant) (project_id : Nat)
    (project_users : List String) (st0 : RunState) : Except (PyErr × RunState) RunState :=
  match participant.login_id with
  | none => .error (.keyError, st0)
  | some login_id =>
    let email := participant.email
    let st := { st0 with processed := st0.processed + 1 }
    if login_id = "" then
      .ok { st with log := st.log ++ [.pendingWarning participant.name] }
    else
      match verifiedStage o login_id st with
      | .error e => .error e
      | .ok st =>
        match enabledStage o login_id st with
        | .error e => .error e
        | .ok st => membershipStage o email project_id project_users login_id st

/-- The inner participant loop (lines 346-352): a participant is handed to
`process_participant` only if its `login_id` key exists and its value is in
the archive account directory. -/
def participants_phase (o : Oracle) (course_id : Nat) (xnat_users : List String)
    (project_users : List String) :
    List Participant → RunState → Except (PyErr × RunState) RunState
  | [], st => .ok st
  | p :: rest, st =>
    match p.login_id with
    | some l =>
      if l ∈ xnat_users then
        match process_participant o p course_id project_users st with
        | .error e => .error e
        | .ok st' => participants_phase o course_id xnat_users project_users rest st'
      else participants_phase o course_id xnat_users project_users rest st
    | none => participants_phase o course_id xnat_users project_users rest st

/-- The project-bootstrap loop (lines 332-337): for each course id whose
f-string is not among the fetched project ids, look up the course name by
`list.index` and POST a new project descriptor. -/
def create_projects_phase (o : Oracle) (course_ids : List Nat) (course_names : List String)
    (project_ids : List String) :
    List Nat → RunState → Except (PyErr × RunState) RunState
  | [], st => .ok st
  | cid :: rest, st =>
    if toString cid ∈ project_ids then
      create_projects_phase o course_ids course_names project_ids rest st
    else
      match course_names.get? (listIndexOf cid course_ids) with
      | none => .error (.indexError, st)
      | some nm =>
        let st := { st with log := st.log ++ [.infoCreating (toString cid) nm] }
        match create_project o (create_xml cid nm) st with
        | .error e => .error e
        | .ok st' => create_projects_phase o course_ids course_names project_ids rest st'

/-- The outer course loop (lines 339-352): per course, fetch the Canvas
participants and the current project membership, then run the participant loop. -/
def course_phase (o : Oracle) (canvas : CanvasState) (xnat_users : List String) :
    List Nat → RunState → Except (PyErr × RunState) RunState
  | [], st => .ok st
  | cid :: rest, st =>
    let canvas_participants := canvas.participants cid
    match get_user_project_data o cid st with
    | .error e => .error e
    | .ok (project_users, st) =>
      match participants_phase o cid xnat_users project_users canvas_participants st with
      | .error e => .error e
      | .ok st' => course_phase o canvas xnat_users rest st'

/-- `IntegrationManager.execute_integration` (lines 320-359): token, course
list, project ids, user directory; `len(xnat_users)` at line 330 raises a
`TypeError` when the directory fetch returned `None`; then the
project-bootstrap loop, the course loop, the summary logs and the teardown. -/
def execute_integration (o : Oracle) (canvas : CanvasState) (st : RunState) :
    Except (PyErr × RunState) RunState :=
  match get_user_token o st with
  | .error e => .error e
  | .ok st =>
    let ids_names := get_canvas_courses canvas
    let course_ids := ids_names.1
    let course_names := ids_names.2
    match get_project_ids_list o st with
    | .error e => .error e
    | .ok (project_ids, st) =>
      match get_users_in_xnat o st with
      | .error e => .error e
      | .ok (usersOpt, st) =>
        let st := { st with log := st.log ++ [.infoStartedCourses course_ids.length] }
        match usersOpt with
        | none => .error (.lenOfNone, st)
        | some xnat_users =>
          let st := { st with log := st.log ++ [.infoUserList xnat_users.length] }
          match create_projects_phase o course_ids course_names project_ids course_ids st with
          | .error e => .error e
          | .ok st =>
            match course_phase o canvas xnat_users course_ids st with
            | .error e => .error e
            | .ok st =>
              let st := { st with log := st.log ++
                [.summary st.processed st.verified_count st.enabled_count
                  st.added_to_project_count] }
              close_connections o st

/-- A fresh `IntegrationManager` run state over an external state `x`:
zero counters, no session, empty trace and log. -/
def initRun (x : XnatState) : RunState :=
  { xnat := x, hasToken := false, processed := 0, verified_count := 0,
    enabled_count := 0, added_to_project_count := 0, trace := [], log := [] }

/-- The state at the end of the run, normal return or uncaught exception. -/
def resultState : Except (PyErr × RunState) RunState → RunState
  | .ok st => st
  | .error (_, st) => st

/-- Whether the run terminated with an uncaught exception. -/
def isCrash : Except (PyErr × RunState) RunState → Bool
  | .ok _ => false
  | .error _ => true

/-- The oracle of a fully available service pair: every request completes
with status 200 and every response body parses. -/
def allOk : Oracle where
  token := .status 200
  projects := .status 200
  projectsParses := true
  users := .status 200
  createProject := fun _ => .status 200
  checkVerified := fun _ => .status 200
  putVerify := fun _ => .status 200
  checkEnabled := fun _ => .status 200
  putEnable := fun _ => .status 200
  projectUsers := fun _ => .status 200
  addUser := fun _ _ => .status 200
  close := .status 200

/-- Whether a trace entry is a create-project POST. -/
def isCreateCall : ApiCall → Bool
  | .createProject _ _ _ => true
  | _ => false

/-- The login targeted by a per-participant archive operation
(verified/enabled status checks, verify/enable PUTs, add-to-project PUT);
`none` for run-level and per-course operations. -/
def opLogin : ApiCall → Option String
  | .checkVerified l => some l
  | .putVerify l => some l
  | .checkEnabled l => some l
  | .putEnable l => some l
  | .addUser _ _ l _ => some l
  | _ => none

/-- The run state after the bootstrap fetches (token, course list, project
list, user directory) of an all-success run started on external state `x`. -/
def preCreateState (canvas : CanvasState) (x : XnatState) : RunState :=
  let st0 := initRun x
  let st1 := { pushCall st0 .acquireToken 200 with hasToken := true }
  let st2 := pushCall st1 .listProjects 200
  let st3 := pushCall st2 .listUsers 200
  let st4 := { st3 with
    log := st3.log ++ [LogEvent.infoStartedCourses (canvas.courses.map Course.id).length] }
  { st4 with log := st4.log ++ [LogEvent.infoUserList x.users.length] }

/-- The state carried by an intermediate API-call result (normal or raise). -/
def xresState {α : Type} : XRes α → RunState
  | .ok (_, st) => st
  | .error (_, st) => st

/-- A small concrete external state: one archive account `"jdoe"`. -/
def xW : XnatState :=
  { users := ["jdoe"], verified := fun _ => false, enabled := fun _ => false,
    members := fun _ => [], projects := [] }

/-- A small concrete roster: one course with a matched participant and a
participant `"ghost"` that has no archive account. -/
def canvasW : CanvasState :=
  { courses := [{ id := 100, name := "Radiology" }],
    participants := fun _ =>
      [{ login_id := some "jdoe", email := some "jdoe@student.edu", name := "J Doe" },
       { login_id := some "ghost", email := some "g@x.y", name := "Ghost" }] }

/-- A participant whose archive account exists (matching `xW`). -/
def pW : Participant := { login_id := some "jdoe", email := some "e@x.y", name := "J" }

/-- All-success oracle except that the verified-status check returns a 500. -/
def oC10 : Oracle := { allOk with checkVerified := fun _ => .status 500 }

/-- All-success oracle except that the enabled-status check returns a 500. -/
def oC10e : Oracle := { allOk with checkEnabled := fun _ => .status 500 }

/-- A roster with a single participant whose `login_id` is the empty
string (a "pending" account on the roster side). -/
def canvasC4 : CanvasState :=
  { courses := [{ id := 1, name := "C" }],
    participants := fun _ =>
      [{ login_id := some "", email := none, name := "Pending P" }] }

/-- An archive directory that does not contain the empty login. -/
def xC4 : XnatState :=
  { users := ["u"], verified := fun _ => false, enabled := fun _ => false,
    members := fun _ => [], projects := ["1"] }

/-- The empty-login participant of `canvasC4`. -/
def pEmptyW : Participant := { login_id := some "", email := none, name := "Pending P" }

/-- All-success oracle except that the add-to-project PUT returns a 403. -/
def oC6 : Oracle := { allOk with addUser := fun _ _ => .status 403 }

/-- External state for the C6 scenario: `"jdoe"` exists, is verified and
enabled, and is not yet a member of any project. -/
def xC6 : XnatState :=
  { users := ["jdoe"], verified := fun _ => true, enabled := fun _ => true,
    members := fun _ => [], projects := [] }

/-- All-success oracle except that the verified-status check for `"u1"`
raises a transport exception. -/
def oC9 : Oracle :=
  { allOk with checkVerified := fun l => if l = "u1" then .exn else .status 200 }

/-- Roster for C9: one course with two matched participants. -/
def canvasC9 : CanvasState :=
  { courses := [{ id := 1, name := "C" }],
    participants := fun _ =>
      [{ login_id := some "u1", email := some "a@b.c", name := "U1" },
       { login_id := some "u2", email := some "d@e.f", name := "U2" }] }

/-- Archive directory for C9: both participants have accounts. -/
def xC9 : XnatState :=
  { users := ["u1", "u2"], verified := fun _ => false, enabled := fun _ => false,
    members := fun _ => [], projects := ["1"] }

/-- Oracle for the C7 witness: session POST and session-authenticated
fetches all return 401. -/
def oC7 : Oracle :=
  { allOk with token := .status 401, projects := .status 401, users := .status 401 }

/-- All-success oracle except that the account-directory fetch returns 500. -/
def oC8 : Oracle := { allOk with users := .status 500 }

/-! ### Small reduction lemmas -/

@[simp] theorem logIfError_200 (log : List LogEvent) : logIfError 200 log = log := rfl

@[simp] theorem pushCall_xnat (st : RunState) (c : ApiCall) (s : Nat) :
    (pushCall st c s).xnat = st.xnat := rfl

@[simp] theorem pushCall_trace (st : RunState) (c : ApiCall) (s : Nat) :
    (pushCall st c s).trace = st.trace ++ [c] := rfl

@[simp] theorem pushCall_log (st : RunState) (c : ApiCall) (s : Nat) :
    (pushCall st c s).log = logIfError s st.log := rfl

@[simp] theorem pushCall_processed (st : RunState) (c : ApiCall) (s : Nat) :
    (pushCall st c s).processed = st.processed := rfl

@[simp] theorem pushCall_verified_count (st : RunState) (c : ApiCall) (s : Nat) :
    (pushCall st c s).verified_count = st.verified_count := rfl

@[simp] theorem pushCall_enabled_count (st : RunState) (c : ApiCall) (s : Nat) :
    (pushCall st c s).enabled_count = st.enabled_count := rfl

@[simp] theorem pushCall_added_count (st : RunState) (c : ApiCall) (s : Nat) :
    (pushCall st c s).added_to_project_count = st.added_to_project_count := rfl

@[simp] theorem pushCall_hasToken (st : RunState) (c : ApiCall) (s : Nat) :
    (pushCall st c s).hasToken = st.hasToken := rfl

@[simp] theorem setVerified_users (x : XnatState) (l : String) :
    (x.setVerified l).users = x.users := rfl

@[simp] theorem setVerified_enabled (x : XnatState) (l : String) :
    (x.setVerified l).enabled = x.enabled := rfl

@[simp] theorem setVerified_members (x : XnatState) (l : String) :
    (x.setVerified l).members = x.members := rfl

@[simp] theorem setVerified_projects (x : XnatState) (l : String) :
    (x.setVerified l).projects = x.projects := rfl

theorem setVerified_verified (x : XnatState) (l l' : String) :
    (x.setVerified l).verified l' = if l' = l then true else x.verified l' := rfl

@[simp] theorem setVerified_verified_self (x : XnatState) (l : String) :
    (x.setVerified l).verified l = true := by
  simp [setVerified_verified]

@[simp] theorem setEnabled_users (x : XnatState) (l : String) :
    (x.setEnabled l).users = x.users := rfl

@[simp] theorem setEnabled_verified (x : XnatState) (l : String) :
    (x.setEnabled l).verified = x.verified := rfl

@[simp] theorem setEnabled_members (x : XnatState) (l : String) :
    (x.setEnabled l).members = x.members := rfl

@[simp] theorem setEnabled_projects (x : XnatState) (l : String) :
    (x.setEnabled l).projects = x.projects := rfl

theorem setEnabled_enabled (x : XnatState) (l l' : String) :
    (x.setEnabled l).enabled l' = if l' = l then true else x.enabled l' := rfl

@[simp] theorem setEnabled_enabled_self (x : XnatState) (l : String) :
    (x.setEnabled l).enabled l = true := by
  simp [setEnabled_enabled]

@[simp] theorem addMember_users (x : XnatState) (c : Nat) (l : String) :
    (x.addMember c l).users = x.users := rfl

@[simp] theorem addMember_verified (x : XnatState) (c : Nat) (l : String) :
    (x.addMember c l).verified = x.verified := rfl

@[simp] theorem addMember_enabled (x : XnatState) (c : Nat) (l : String) :
    (x.addMember c l).enabled = x.enabled := rfl

@[simp] theorem addMember_projects (x : XnatState) (c : Nat) (l : String) :
    (x.addMember c l).projects = x.projects := rfl

theorem addMember_members (x : XnatState) (c : Nat) (l : String) (c' : Nat) :
    (x.addMember c l).members c' = if c' = c then x.members c' ++ [l] else x.members c' := rfl

@[simp] theorem pyNot_some (b : Bool) : pyNot (some b) = !b := rfl

@[simp] theorem pyNot_none : pyNot none = true := rfl

@[simp] theorem respOk_200 : respOk 200 = true := rfl

/-! ### Behaviour of the API wrappers under the all-success oracle -/

theorem get_user_token_allOk (st : RunState) :
    get_user_token allOk st = .ok { pushCall st .acquireToken 200 with hasToken := true } := rfl

theorem get_project_ids_list_allOk (st : RunState) :
    get_project_ids_list allOk st =
      .ok (st.xnat.projects, pushCall st .listProjects 200) := rfl

theorem get_users_in_xnat_allOk (st : RunState) :
    get_users_in_xnat allOk st =
      .ok (some st.xnat.users, pushCall st .listUsers 200) := rfl

theorem check_user_verified_allOk (login : String) (st : RunState) :
    check_user_verified_in_xnat allOk login st =
      .ok (some (st.xnat.verified login), pushCall st (.checkVerified login) 200) := rfl

theorem verify_user_allOk (login : String) (st : RunState) :
    verify_user_in_xnat allOk login st =
      .ok (true, { pushCall st (.putVerify login) 200 with
                    xnat := st.xnat.setVerified login }) := rfl

theorem check_user_enabled_allOk (login : String) (st : RunState) :
    check_user_enabled_in_xnat allOk login st =
      .ok (some (st.xnat.enabled login), pushCall st (.checkEnabled login) 200) := rfl

theorem enable_user_allOk (login : String) (st : RunState) :
    enable_user_in_xnat allOk login st =
      .ok (true, { pushCall st (.putEnable login) 200 with
                    xnat := st.xnat.setEnabled login }) := rfl

theorem get_user_project_data_allOk (project : Nat) (st : RunState) :
    get_user_project_data allOk project st =
      .ok (st.xnat.members project, pushCall st (.listProjectUsers project) 200) := rfl

theorem create_project_allOk (xml : ProjectXml) (st : RunState) :
    create_project allOk xml st =
      .ok { pushCall st (.createProject xml.ID xml.secondary_ID xml.name) 200 with
            xnat := { st.xnat with projects := st.xnat.projects ++ [xml.ID] } } := rfl

theorem close_connections_allOk (st : RunState) :
    close_connections allOk st = .ok (pushCall st .closeSession 200) := rfl

@[simp] theorem allOk_addUser (cid : Nat) (l : String) :
    allOk.addUser cid l = .status 200 := rfl

theorem setVerified_mono (x : XnatState) (l : String) :
    ∀ l', x.verified l' = true → (x.setVerified l).verified l' = true := by
  intro l' h
  rw [setVerified_verified]
  split
  · rfl
  · exact h

theorem setEnabled_mono (x : XnatState) (l : String) :
    ∀ l', x.enabled l' = true → (x.setEnabled l).enabled l' = true := by
  intro l' h
  rw [setEnabled_enabled]
  split
  · rfl
  · exact h

theorem addMember_mono (x : XnatState) (cid : Nat) (l : String) :
    ∀ c l', l' ∈ x.members c → l' ∈ (x.addMember cid l).members c := by
  intro c l' h
  rw [addMember_members]
  split
  · exact List.mem_append_left _ h
  · exact h

@[simp] theorem addMember_self (x : XnatState) (cid : Nat) (l : String) :
    l ∈ (x.addMember cid l).members cid := by
  rw [addMember_members]
  simp

/-- Master description of `process_participant` under the all-success
oracle: it returns normally; the directory and project list are untouched;
verified/enabled flags and memberships only grow; no create-project call is
traced; a non-empty login ends verified, enabled and (if it was missing
from the membership snapshot) a member; and a participant that is already
satisfied (or has an empty login) changes no external state and no
verified/enabled/added counter. -/
theorem process_allOk_spec (p : Participant) (cid : Nat) (pus : List String)
    (st0 : RunState) (l : String) (hl : p.login_id = some l) :
    ∃ st', process_participant allOk p cid pus st0 = .ok st' ∧
      st'.xnat.users = st0.xnat.users ∧
      st'.xnat.projects = st0.xnat.projects ∧
      (∀ l', st0.xnat.verified l' = true → st'.xnat.verified l' = true) ∧
      (∀ l', st0.xnat.enabled l' = true → st'.xnat.enabled l' = true) ∧
      (∀ c l', l' ∈ st0.xnat.members c → l' ∈ st'.xnat.members c) ∧
      st'.trace.filter isCreateCall = st0.trace.filter isCreateCall ∧
      (l ≠ "" → st'.xnat.verified l = true ∧ st'.xnat.enabled l = true ∧
        (l ∉ pus → l ∈ st'.xnat.members cid)) ∧
      ((l = "" ∨ (st0.xnat.verified l = true ∧ st0.xnat.enabled l = true ∧ l ∈ pus)) →
        st'.xnat = st0.xnat ∧ st'.verified_count = st0.verified_count ∧
        st'.enabled_count = st0.enabled_count ∧
        st'.added_to_project_count = st0.added_to_project_count) := by
  simp only [process_participant, verifiedStage, enabledStage, membershipStage, hl]
  by_cases h0 : l = ""
  · rw [if_pos h0]
    exact ⟨_, rfl, rfl, rfl, fun _ h => h, fun _ h => h, fun _ _ h => h, rfl,
      fun hn => absurd h0 hn, fun _ => ⟨rfl, rfl, rfl, rfl⟩⟩
  · rw [if_neg h0]
    simp only [check_user_verified_allOk, pyNot_some, pushCall_xnat]
    cases hv : st0.xnat.verified l with
    | true =>
      simp only [Bool.not_true, Bool.false_eq_true, if_false,
        check_user_enabled_allOk, pyNot_some, pushCall_xnat]
      cases he : st0.xnat.enabled l with
      | true =>
        simp only [Bool.not_true, Bool.false_eq_true, if_false]
        by_cases hmem : l ∈ pus
        · rw [if_pos hmem]
          exact ⟨_, rfl, rfl, rfl, fun _ h => h, fun _ h => h, fun _ _ h => h,
            by simp [isCreateCall],
            fun _ => ⟨hv, he, fun hn => absurd hmem hn⟩,
            fun _ => ⟨rfl, rfl, rfl, rfl⟩⟩
        · rw [if_neg hmem]
          simp only [allOk_addUser, if_pos rfl]
          refine ⟨_, rfl, rfl, rfl, fun _ h => h, fun _ h => h,
            addMember_mono _ _ _, by simp [isCreateCall],
            fun _ => ⟨hv, he, fun _ => by simp⟩, ?_⟩
          rintro (h | ⟨-, -, h⟩)
          · exact absurd h h0
          · exact absurd h hmem
      | false =>
        simp only [Bool.not_false, if_true, enable_user_allOk, if_pos rfl,
          pushCall_xnat]
        by_cases hmem : l ∈ pus
        · rw [if_pos hmem]
          refine ⟨_, rfl, rfl, rfl, fun _ h => h, setEnabled_mono _ _,
            fun _ _ h => h, by simp [isCreateCall],
            fun _ => ⟨hv, by simp, fun hn => absurd hmem hn⟩, ?_⟩
          rintro (h | ⟨-, h, -⟩)
          · exact absurd h h0
          · simp at h
        · rw [if_neg hmem]
          simp only [allOk_addUser, if_pos rfl]
          refine ⟨_, rfl, rfl, rfl, fun _ h => h, setEnabled_mono _ _,
            addMember_mono _ _ _, by simp [isCreateCall],
            fun _ => ⟨hv, by simp, fun _ => by simp⟩, ?_⟩
          rintro (h | ⟨-, h, -⟩)
          · exact absurd h h0
          · simp at h
    | false =>
      simp only [Bool.not_false, if_true, verify_user_allOk, if_pos rfl,
        check_user_enabled_allOk, pyNot_some, pushCall_xnat, setVerified_enabled]
      cases he : st0.xnat.enabled l with
      | true =>
        simp only [Bool.not_true, Bool.false_eq_true, if_false]
        by_cases hmem : l ∈ pus
        · rw [if_pos hmem]
          refine ⟨_, rfl, rfl, rfl, setVerified_mono _ _, fun _ h => h,
            fun _ _ h => h, by simp [isCreateCall],
            fun _ => ⟨by simp, he, fun hn => absurd hmem hn⟩, ?_⟩
          rintro (h | ⟨h, -, -⟩)
          · exact absurd h h0
          · simp at h
        · rw [if_neg hmem]
          simp only [allOk_addUser, if_pos rfl]
          refine ⟨_, rfl, rfl, rfl, setVerified_mono _ _, fun _ h => h,
            addMember_mono _ _ _, by simp [isCreateCall],
            fun _ => ⟨by simp, he, fun _ => by simp⟩, ?_⟩
          rintro (h | ⟨h, -, -⟩)
          · exact absurd h h0
          · simp at h
      | false =>
        simp only [Bool.not_false, if_true, enable_user_allOk, if_pos rfl,
          pushCall_xnat]
        by_cases hmem : l ∈ pus
        · rw [if_pos hmem]
          refine ⟨_, rfl, rfl, rfl, setVerified_mono _ _, setEnabled_mono _ _,
            fun _ _ h => h, by simp [isCreateCall],
            fun _ => ⟨by simp, by simp, fun hn => absurd hmem hn⟩, ?_⟩
          rintro (h | ⟨h, -, -⟩)
          · exact absurd h h0
          · simp at h
        · rw [if_neg hmem]
          simp only [allOk_addUser, if_pos rfl]
          refine ⟨_, rfl, rfl, rfl, setVerified_mono _ _, setEnabled_mono _ _,
            addMember_mono _ _ _, by simp [isCreateCall],
            fun _ => ⟨by simp, by simp, fun _ => by simp⟩, ?_⟩
          rintro (h | ⟨h, -, -⟩)
          · exact absurd h h0
          · simp at h

/-- Run-1 shape of the participant loop under the all-success oracle:
it returns normally, external state only grows, and every participant of
the list whose login passes the directory guard ends verified, enabled
and a member of the course project. -/
theorem participants_phase_allOk_sat (cid : Nat) (users pus : List String)
    (ps : List Participant) (st : RunState)
    (hpus : ∀ l ∈ pus, l ∈ st.xnat.members cid) :
    ∃ st', participants_phase allOk cid users pus ps st = .ok st' ∧
      st'.xnat.users = st.xnat.users ∧
      st'.xnat.projects = st.xnat.projects ∧
      (∀ l', st.xnat.verified l' = true → st'.xnat.verified l' = true) ∧
      (∀ l', st.xnat.enabled l' = true → st'.xnat.enabled l' = true) ∧
      (∀ c l', l' ∈ st.xnat.members c → l' ∈ st'.xnat.members c) ∧
      st'.trace.filter isCreateCall = st.trace.filter isCreateCall ∧
      (∀ p ∈ ps, ∀ l, p.login_id = some l → l ∈ users → l ≠ "" →
        st'.xnat.verified l = true ∧ st'.xnat.enabled l = true ∧
        l ∈ st'.xnat.members cid) := by
  induction ps generalizing st with
  | nil =>
    exact ⟨st, rfl, rfl, rfl, fun _ h => h, fun _ h => h, fun _ _ h => h, rfl, by simp⟩
  | cons p rest ih =>
    cases hlp : p.login_id with
    | none =>
      simp only [participants_phase, hlp]
      obtain ⟨st', heq, h1, h2, h3, h4, h5, h6, h7⟩ := ih st hpus
      refine ⟨st', heq, h1, h2, h3, h4, h5, h6, ?_⟩
      intro q hq l2 hql hl2u hl2ne
      rcases List.mem_cons.mp hq with rfl | hq'
      · rw [hlp] at hql
        exact Option.noConfusion hql
      · exact h7 q hq' l2 hql hl2u hl2ne
    | some l =>
      simp only [participants_phase, hlp]
      by_cases hlu : l ∈ users
      · rw [if_pos hlu]
        obtain ⟨st1, heq1, u1, pr1, v1, e1, m1, f1, sat1, -⟩ :=
          process_allOk_spec p cid pus st l hlp
        rw [heq1]
        have hpus1 : ∀ l' ∈ pus, l' ∈ st1.xnat.members cid :=
          fun l' hl' => m1 _ _ (hpus l' hl')
        obtain ⟨st', heq, h1, h2, h3, h4, h5, h6, h7⟩ := ih st1 hpus1
        refine ⟨st', heq, h1.trans u1, h2.trans pr1, fun l' h => h3 l' (v1 l' h),
          fun l' h => h4 l' (e1 l' h), fun c l' h => h5 c l' (m1 c l' h),
          h6.trans f1, ?_⟩
        intro q hq l2 hql hl2u hl2ne
        rcases List.mem_cons.mp hq with rfl | hq'
        · rw [hlp] at hql
          injection hql with hh
          subst hh
          obtain ⟨sv, se, sm⟩ := sat1 hl2ne
          refine ⟨h3 _ sv, h4 _ se, ?_⟩
          by_cases hmem : l ∈ pus
          · exact h5 _ _ (hpus1 _ hmem)
          · exact h5 _ _ (sm hmem)
        · exact h7 q hq' l2 hql hl2u hl2ne
      · rw [if_neg hlu]
        obtain ⟨st', heq, h1, h2, h3, h4, h5, h6, h7⟩ := ih st hpus
        refine ⟨st', heq, h1, h2, h3, h4, h5, h6, ?_⟩
        intro q hq l2 hql hl2u hl2ne
        rcases List.mem_cons.mp hq with rfl | hq'
        · rw [hlp] at hql
          injection hql with hh
          subst hh
          exact absurd hl2u hlu
        · exact h7 q hq' l2 hql hl2u hl2ne

/-- Run-2 shape of the participant loop under the all-success oracle: when
every guarded participant of the list is already verified, enabled and in
the membership snapshot, the loop changes no external state and none of
the verified/enabled/added counters. -/
theorem participants_phase_allOk_quiet (cid : Nat) (users pus : List String)
    (ps : List Participant) (st : RunState)
    (hsat : ∀ p ∈ ps, ∀ l, p.login_id = some l → l ∈ users → l ≠ "" →
      st.xnat.verified l = true ∧ st.xnat.enabled l = true ∧ l ∈ pus) :
    ∃ st', participants_phase allOk cid users pus ps st = .ok st' ∧
      st'.xnat = st.xnat ∧
      st'.verified_count = st.verified_count ∧
      st'.enabled_count = st.enabled_count ∧
      st'.added_to_project_count = st.added_to_project_count := by
  induction ps generalizing st with
  | nil => exact ⟨st, rfl, rfl, rfl, rfl, rfl⟩
  | cons p rest ih =>
    cases hlp : p.login_id with
    | none =>
      simp only [participants_phase, hlp]
      exact ih st (fun q hq => hsat q (List.mem_cons_of_mem _ hq))
    | some l =>
      simp only [participants_phase, hlp]
      by_cases hlu : l ∈ users
      · rw [if_pos hlu]
        obtain ⟨st1, heq1, -, -, -, -, -, -, -, quiet1⟩ :=
          process_allOk_spec p cid pus st l hlp
        rw [heq1]
        have hq1 : st1.xnat = st.xnat ∧ st1.verified_count = st.verified_count ∧
            st1.enabled_count = st.enabled_count ∧
            st1.added_to_project_count = st.added_to_project_count := by
          by_cases h0 : l = ""
          · exact quiet1 (Or.inl h0)
          · exact quiet1 (Or.inr (hsat p (List.mem_cons_self _ _) l hlp hlu h0))
        obtain ⟨hx1, hv1, he1, ha1⟩ := hq1
        obtain ⟨st', heq, hx, hv, he, ha⟩ := ih st1 (by
          intro q hq l2 hql hl2u hl2ne
          rw [hx1]
          exact hsat q (List.mem_cons_of_mem _ hq) l2 hql hl2u hl2ne)
        exact ⟨st', heq, hx.trans hx1, hv.trans hv1, he.trans he1, ha.trans ha1⟩
      · rw [if_neg hlu]
        exact ih st (fun q hq => hsat q (List.mem_cons_of_mem _ hq))

/-- Run-1 shape of the course loop under the all-success oracle. -/
theorem course_phase_allOk_sat (canvas : CanvasState) (users : List String)
    (cids : List Nat) (st : RunState) :
    ∃ st', course_phase allOk canvas users cids st = .ok st' ∧
      st'.xnat.users = st.xnat.users ∧
      st'.xnat.projects = st.xnat.projects ∧
      (∀ l', st.xnat.verified l' = true → st'.xnat.verified l' = true) ∧
      (∀ l', st.xnat.enabled l' = true → st'.xnat.enabled l' = true) ∧
      (∀ c l', l' ∈ st.xnat.members c → l' ∈ st'.xnat.members c) ∧
      st'.trace.filter isCreateCall = st.trace.filter isCreateCall ∧
      (∀ cid ∈ cids, ∀ p ∈ canvas.participants cid, ∀ l,
        p.login_id = some l → l ∈ users → l ≠ "" →
        st'.xnat.verified l = true ∧ st'.xnat.enabled l = true ∧
        l ∈ st'.xnat.members cid) := by
  induction cids generalizing st with
  | nil =>
    exact ⟨st, rfl, rfl, rfl, fun _ h => h, fun _ h => h, fun _ _ h => h, rfl, by simp⟩
  | cons cid rest ih =>
    simp only [course_phase, get_user_project_data_allOk]
    obtain ⟨st1, heq1, u1, pr1, v1, e1, m1, f1, sat1⟩ :=
      participants_phase_allOk_sat cid users (st.xnat.members cid)
        (canvas.participants cid) (pushCall st (.listProjectUsers cid) 200)
        (fun l hl => hl)
    rw [heq1]
    obtain ⟨st', heq, h1, h2, h3, h4, h5, h6, h7⟩ := ih st1
    refine ⟨st', heq, h1.trans u1, h2.trans pr1, fun l' h => h3 l' (v1 l' h),
      fun l' h => h4 l' (e1 l' h), fun c l' h => h5 c l' (m1 c l' h),
      h6.trans (f1.trans (by simp [isCreateCall])), ?_⟩
    intro c hc p hp l hlg hlu hlne
    rcases List.mem_cons.mp hc with rfl | hc'
    · obtain ⟨sv, se, sm⟩ := sat1 p hp l hlg hlu hlne
      exact ⟨h3 _ sv, h4 _ se, h5 _ _ sm⟩
    · exact h7 c hc' p hp l hlg hlu hlne

/-- Run-2 shape of the course loop under the all-success oracle: when every
guarded participant of every listed course is already verified, enabled and
a member of that course's project, the loop changes no external state and
none of the verified/enabled/added counters. -/
theorem course_phase_allOk_quiet (canvas : CanvasState) (users : List String)
    (cids : List Nat) (st : RunState)
    (hsat : ∀ cid ∈ cids, ∀ p ∈ canvas.participants cid, ∀ l,
      p.login_id = some l → l ∈ users → l ≠ "" →
      st.xnat.verified l = true ∧ st.xnat.enabled l = true ∧
      l ∈ st.xnat.members cid) :
    ∃ st', course_phase allOk canvas users cids st = .ok st' ∧
      st'.xnat = st.xnat ∧
      st'.verified_count = st.verified_count ∧
      st'.enabled_count = st.enabled_count ∧
      st'.added_to_project_count = st.added_to_project_count := by
  induction cids generalizing st with
  | nil => exact ⟨st, rfl, rfl, rfl, rfl, rfl⟩
  | cons cid rest ih =>
    simp only [course_phase, get_user_project_data_allOk]
    obtain ⟨st1, heq1, hx1, hv1, he1, ha1⟩ :=
      participants_phase_allOk_quiet cid users (st.xnat.members cid)
        (canvas.participants cid) (pushCall st (.listProjectUsers cid) 200)
        (fun p hp l hlg hlu hlne => hsat cid (List.mem_cons_self _ _) p hp l hlg hlu hlne)
    rw [heq1]
    obtain ⟨st', heq, hx, hv, he, ha⟩ := ih st1 (by
      intro c hc p hp l hlg hlu hlne
      rw [hx1]
      exact hsat c (List.mem_cons_of_mem _ hc) p hp l hlg hlu hlne)
    exact ⟨st', heq, hx.trans hx1, hv.trans hv1, he.trans he1, ha.trans ha1⟩

theorem listIndexOf_lt_length {a : Nat} {l : List Nat} (h : a ∈ l) :
    listIndexOf a l < l.length := by
  induction l with
  | nil => cases h
  | cons x xs ih =>
    simp only [listIndexOf, List.length_cons]
    by_cases hx : x = a
    · rw [if_pos hx]
      exact Nat.succ_pos _
    · rw [if_neg hx]
      have hmem : a ∈ xs := by
        rcases List.mem_cons.mp h with rfl | h'
        · exact absurd rfl hx
        · exact h'
      exact Nat.succ_lt_succ (ih hmem)

/-- The project-bootstrap loop under the all-success oracle returns
normally (given that each course id's name lookup is in range) and touches
neither the account flags and memberships nor any manager counter. -/
theorem create_phase_allOk (ids : List Nat) (names : List String) (pids : List String)
    (cids : List Nat) (st : RunState)
    (hlen : ∀ cid ∈ cids, listIndexOf cid ids < names.length) :
    ∃ st', create_projects_phase allOk ids names pids cids st = .ok st' ∧
      st'.xnat.users = st.xnat.users ∧
      st'.xnat.verified = st.xnat.verified ∧
      st'.xnat.enabled = st.xnat.enabled ∧
      st'.xnat.members = st.xnat.members ∧
      st'.processed = st.processed ∧
      st'.verified_count = st.verified_count ∧
      st'.enabled_count = st.enabled_count ∧
      st'.added_to_project_count = st.added_to_project_count := by
  induction cids generalizing st with
  | nil => exact ⟨st, rfl, rfl, rfl, rfl, rfl, rfl, rfl, rfl, rfl⟩
  | cons cid rest ih =>
    simp only [create_projects_phase]
    by_cases hin : toString cid ∈ pids
    · rw [if_pos hin]
      exact ih st (fun c hc => hlen c (List.mem_cons_of_mem _ hc))
    · rw [if_neg hin]
      cases hnm : names.get? (listIndexOf cid ids) with
      | none =>
        exact absurd (List.get?_eq_none.mp hnm)
          (Nat.not_le.mpr (hlen cid (List.mem_cons_self _ _)))
      | some nm =>
        simp only [create_project_allOk]
        obtain ⟨st', heq, h1, h2, h3, h4, h5, h6, h7, h8⟩ :=
          ih _ (fun c hc => hlen c (List.mem_cons_of_mem _ hc))
        exact ⟨st', heq, h1, h2, h3, h4, h5, h6, h7, h8⟩

theorem execute_allOk_eq (canvas : CanvasState) (x : XnatState) :
    execute_integration allOk canvas (initRun x) =
      match create_projects_phase allOk (canvas.courses.map Course.id)
          (canvas.courses.map Course.name) x.projects
          (canvas.courses.map Course.id) (preCreateState canvas x) with
      | .error e => .error e
      | .ok st =>
        match course_phase allOk canvas x.users (canvas.courses.map Course.id) st with
        | .error e => .error e
        | .ok st =>
          close_connections allOk { st with log := st.log ++
            [.summary st.processed st.verified_count st.enabled_count
              st.added_to_project_count] } := rfl

@[simp] theorem preCreateState_xnat (canvas : CanvasState) (x : XnatState) :
    (preCreateState canvas x).xnat = x := rfl

@[simp] theorem preCreateState_processed (canvas : CanvasState) (x : XnatState) :
    (preCreateState canvas x).processed = 0 := rfl

@[simp] theorem preCreateState_verified_count (canvas : CanvasState) (x : XnatState) :
    (preCreateState canvas x).verified_count = 0 := rfl

@[simp] theorem preCreateState_enabled_count (canvas : CanvasState) (x : XnatState) :
    (preCreateState canvas x).enabled_count = 0 := rfl

@[simp] theorem preCreateState_added_count (canvas : CanvasState) (x : XnatState) :
    (preCreateState canvas x).added_to_project_count = 0 := rfl

@[simp] theorem preCreateState_trace (canvas : CanvasState) (x : XnatState) :
    (preCreateState canvas x).trace = [.acquireToken, .listProjects, .listUsers] := rfl

/-- Run-1 summary under the all-success oracle: a full run returns
normally, keeps the account directory unchanged, and leaves every
participant that passes the directory guard (non-empty login present in
the directory) verified, enabled and a member of their course's project. -/
theorem execute_allOk_sat (canvas : CanvasState) (x : XnatState) :
    ∃ st', execute_integration allOk canvas (initRun x) = .ok st' ∧
      st'.xnat.users = x.users ∧
      (∀ cid ∈ canvas.courses.map Course.id, ∀ p ∈ canvas.participants cid, ∀ l,
        p.login_id = some l → l ∈ x.users → l ≠ "" →
        st'.xnat.verified l = true ∧ st'.xnat.enabled l = true ∧
        l ∈ st'.xnat.members cid) := by
  have hlen : ∀ cid ∈ canvas.courses.map Course.id,
      listIndexOf cid (canvas.courses.map Course.id) <
        (canvas.courses.map Course.name).length := by
    intro cid hc
    have := listIndexOf_lt_length hc
    simpa [List.length_map] using this
  obtain ⟨st1, heq1, c1u, c1v, c1e, c1m, -, -, -, -⟩ :=
    create_phase_allOk (canvas.courses.map Course.id) (canvas.courses.map Course.name)
      x.projects (canvas.courses.map Course.id) (preCreateState canvas x) hlen
  obtain ⟨st2, heq2, h2u, -, h2v, h2e, h2m, -, h2sat⟩ :=
    course_phase_allOk_sat canvas x.users (canvas.courses.map Course.id) st1
  rw [execute_allOk_eq]
  simp only [heq1]
  simp only [heq2]
  simp only [close_connections_allOk]
  refine ⟨_, rfl, ?_, ?_⟩
  · show st2.xnat.users = x.users
    rw [h2u, c1u, preCreateState_xnat]
  · intro cid hc p hp l hlg hlu hlne
    have hlu2 : l ∈ x.users := hlu
    exact h2sat cid hc p hp l hlg hlu2 hlne

/-- Run-2 summary under the all-success oracle: started on an external
state in which every guarded participant of every course is already
verified, enabled and a member of the corresponding project, a full run
returns normally with zero verified/enabled/added counters. -/
theorem execute_allOk_quiet (canvas : CanvasState) (x : XnatState)
    (hsat : ∀ cid ∈ canvas.courses.map Course.id, ∀ p ∈ canvas.participants cid, ∀ l,
      p.login_id = some l → l ∈ x.users → l ≠ "" →
      x.verified l = true ∧ x.enabled l = true ∧ l ∈ x.members cid) :
    ∃ st', execute_integration allOk canvas (initRun x) = .ok st' ∧
      st'.verified_count = 0 ∧ st'.enabled_count = 0 ∧
      st'.added_to_project_count = 0 := by
  have hlen : ∀ cid ∈ canvas.courses.map Course.id,
      listIndexOf cid (canvas.courses.map Course.id) <
        (canvas.courses.map Course.name).length := by
    intro cid hc
    have := listIndexOf_lt_length hc
    simpa [List.length_map] using this
  obtain ⟨st1, heq1, c1u, c1v, c1e, c1m, -, c1vc, c1ec, c1ac⟩ :=
    create_phase_allOk (canvas.courses.map Course.id) (canvas.courses.map Course.name)
      x.projects (canvas.courses.map Course.id) (preCreateState canvas x) hlen
  obtain ⟨st2, heq2, h2x, h2vc, h2ec, h2ac⟩ :=
    course_phase_allOk_quiet canvas x.users (canvas.courses.map Course.id) st1 (by
      intro cid hc p hp l hlg hlu hlne
      rw [c1v, c1e, c1m, preCreateState_xnat]
      exact hsat cid hc p hp l hlg hlu hlne)
  rw [execute_allOk_eq]
  simp only [heq1]
  simp only [heq2]
  simp only [close_connections_allOk]
  refine ⟨_, rfl, ?_, ?_, ?_⟩
  · show st2.verified_count = 0
    rw [h2vc, c1vc, preCreateState_verified_count]
  · show st2.enabled_count = 0
    rw [h2ec, c1ec, preCreateState_enabled_count]
  · show st2.added_to_project_count = 0
    rw [h2ac, c1ac, preCreateState_added_count]

/-- C1: role derivation is a pure function of the participant's email only:
`None` or empty email, or an email containing the substring "student",
derives "collaborator"; any other non-empty email derives "member";
`""` and `"a@student.edu"` map to collaborator and `"a@fac.edu"` to member;
and the derivation used by `add_user_to_project` (line 235) is identical to
the one used by `process_participant` (line 312). -/
theorem C1_role_derivation :
    role_in_process_participant none = "collaborator" ∧
    role_in_process_participant (some "") = "collaborator" ∧
    (∀ e : String, pyInStr "student" e = true →
      role_in_process_participant (some e) = "collaborator") ∧
    (∀ e : String, e ≠ "" → pyInStr "student" e = false →
      role_in_process_participant (some e) = "member") ∧
    role_in_process_participant (some "a@student.edu") = "collaborator" ∧
    role_in_process_participant (some "a@fac.edu") = "member" ∧
    role_in_add_user_to_project = role_in_process_participant := by
  refine ⟨rfl, by decide, ?_, ?_, by decide, by decide, rfl⟩
  · intro e h
    simp [role_in_process_participant, h]
  · intro e he h
    simp [role_in_process_participant, h, he]

/-- Witness for C1: the universally quantified clauses applied at the
concrete emails `"x@student.org"` (containing "student") and `"b@c.d"`
(non-empty, not containing "student"). -/
theorem C1_role_derivation_witness :
    pyInStr "student" "x@student.org" = true ∧
    "b@c.d" ≠ "" ∧ pyInStr "student" "b@c.d" = false ∧
    role_in_process_participant (some "x@student.org") = "collaborator" ∧
    role_in_process_participant (some "b@c.d") = "member" :=
  ⟨by decide, by decide, by decide,
    C1_role_derivation.2.2.1 "x@student.org" (by decide),
    C1_role_derivation.2.2.2.1 "b@c.d" (by decide) (by decide)⟩

/-- C2: running the full reconciliation twice in succession, the external
services reflecting the first run's writes (the all-success service model)
and nothing else changing between runs, ends the second run with
`verified == 0`, `enabled == 0` and `addedToProject == 0`. -/
theorem C2_second_run_idempotent (canvas : CanvasState) (x : XnatState) :
    ∃ st1 st2,
      execute_integration allOk canvas (initRun x) = .ok st1 ∧
      execute_integration allOk canvas (initRun st1.xnat) = .ok st2 ∧
      st2.verified_count = 0 ∧ st2.enabled_count = 0 ∧
      st2.added_to_project_count = 0 := by
  obtain ⟨st1, heq1, hu, hsat⟩ := execute_allOk_sat canvas x
  obtain ⟨st2, heq2, hv, he, ha⟩ := execute_allOk_quiet canvas st1.xnat (by
    intro cid hc p hp l hlg hlu hlne
    exact hsat cid hc p hp l hlg (hu ▸ hlu) hlne)
  exact ⟨st1, st2, heq1, heq2, hv, he, ha⟩

@[simp] theorem xresState_ok {α : Type} (a : α) (st : RunState) :
    xresState (.ok (a, st)) = st := rfl

@[simp] theorem xresState_error {α : Type} (e : PyErr × RunState) :
    xresState (α := α) (.error e) = e.2 := rfl

@[simp] theorem resultState_ok (st : RunState) : resultState (.ok st) = st := rfl

@[simp] theorem resultState_error (e : PyErr × RunState) :
    resultState (.error e) = e.2 := rfl

theorem check_verified_trace_delta (o : Oracle) (login : String) (st : RunState) :
    ∀ a ∈ (xresState (check_user_verified_in_xnat o login st)).trace,
      a ∈ st.trace ∨ a = .checkVerified login := by
  cases hc : o.checkVerified login with
  | exn =>
    simp only [check_user_verified_in_xnat, hc, xresState_error]
    exact fun a ha => Or.inl ha
  | status s =>
    simp only [check_user_verified_in_xnat, hc]
    split
    all_goals
      simp only [xresState_ok, pushCall_trace]
      intro a ha
      rcases List.mem_append.mp ha with h | h
      · exact Or.inl h
      · simp only [List.mem_singleton] at h
        exact Or.inr h

theorem verify_trace_delta (o : Oracle) (login : String) (st : RunState) :
    ∀ a ∈ (xresState (verify_user_in_xnat o login st)).trace,
      a ∈ st.trace ∨ a = .putVerify login := by
  cases hc : o.putVerify login with
  | exn =>
    simp only [verify_user_in_xnat, hc, xresState_error]
    exact fun a ha => Or.inl ha
  | status s =>
    simp only [verify_user_in_xnat, hc]
    split
    all_goals
      simp only [xresState_ok, pushCall_trace]
      intro a ha
      rcases List.mem_append.mp ha with h | h
      · exact Or.inl h
      · simp only [List.mem_singleton] at h
        exact Or.inr h

theorem check_enabled_trace_delta (o : Oracle) (login : String) (st : RunState) :
    ∀ a ∈ (xresState (check_user_enabled_in_xnat o login st)).trace,
      a ∈ st.trace ∨ a = .checkEnabled login := by
  cases hc : o.checkEnabled login with
  | exn =>
    simp only [check_user_enabled_in_xnat, hc, xresState_error]
    exact fun a ha => Or.inl ha
  | status s =>
    simp only [check_user_enabled_in_xnat, hc]
    split
    all_goals
      simp only [xresState_ok, pushCall_trace]
      intro a ha
      rcases List.mem_append.mp ha with h | h
      · exact Or.inl h
      · simp only [List.mem_singleton] at h
        exact Or.inr h

theorem enable_trace_delta (o : Oracle) (login : String) (st : RunState) :
    ∀ a ∈ (xresState (enable_user_in_xnat o login st)).trace,
      a ∈ st.trace ∨ a = .putEnable login := by
  cases hc : o.putEnable login with
  | exn =>
    simp only [enable_user_in_xnat, hc, xresState_error]
    exact fun a ha => Or.inl ha
  | status s =>
    simp only [enable_user_in_xnat, hc]
    split
    all_goals
      simp only [xresState_ok, pushCall_trace]
      intro a ha
      rcases List.mem_append.mp ha with h | h
      · exact Or.inl h
      · simp only [List.mem_singleton] at h
        exact Or.inr h

theorem check_verified_trace_mono (o : Oracle) (login : String) (st : RunState) :
    ∀ a ∈ st.trace, a ∈ (xresState (check_user_verified_in_xnat o login st)).trace := by
  cases hc : o.checkVerified login with
  | exn => simp only [check_user_verified_in_xnat, hc, xresState_error]; exact fun a ha => ha
  | status s =>
    simp only [check_user_verified_in_xnat, hc]
    split
    all_goals
      simp only [xresState_ok, pushCall_trace]
      exact fun a ha => List.mem_append_left _ ha

theorem verify_trace_mono (o : Oracle) (login : String) (st : RunState) :
    ∀ a ∈ st.trace, a ∈ (xresState (verify_user_in_xnat o login st)).trace := by
  cases hc : o.putVerify login with
  | exn => simp only [verify_user_in_xnat, hc, xresState_error]; exact fun a ha => ha
  | status s =>
    simp only [verify_user_in_xnat, hc]
    split
    all_goals
      simp only [xresState_ok, pushCall_trace]
      exact fun a ha => List.mem_append_left _ ha

theorem check_enabled_trace_mono (o : Oracle) (login : String) (st : RunState) :
    ∀ a ∈ st.trace, a ∈ (xresState (check_user_enabled_in_xnat o login st)).trace := by
  cases hc : o.checkEnabled login with
  | exn => simp only [check_user_enabled_in_xnat, hc, xresState_error]; exact fun a ha => ha
  | status s =>
    simp only [check_user_enabled_in_xnat, hc]
    split
    all_goals
      simp only [xresState_ok, pushCall_trace]
      exact fun a ha => List.mem_append_left _ ha

theorem enable_trace_mono (o : Oracle) (login : String) (st : RunState) :
    ∀ a ∈ st.trace, a ∈ (xresState (enable_user_in_xnat o login st)).trace := by
  cases hc : o.putEnable login with
  | exn => simp only [enable_user_in_xnat, hc, xresState_error]; exact fun a ha => ha
  | status s =>
    simp only [enable_user_in_xnat, hc]
    split
    all_goals
      simp only [xresState_ok, pushCall_trace]
      exact fun a ha => List.mem_append_left _ ha

/-- Any call the verification block appends to the trace is a
per-participant operation on its login. -/
theorem verifiedStage_opLogin (o : Oracle) (l : String) (st : RunState) :
    ∀ a ∈ (resultState (verifiedStage o l st)).trace,
      a ∈ st.trace ∨ opLogin a = some l := by
  unfold verifiedStage
  cases h1 : check_user_verified_in_xnat o l st with
  | error e =>
    have d1 := check_verified_trace_delta o l st
    rw [h1] at d1
    simp only [xresState_error] at d1
    simp only [resultState_error]
    intro a ha
    rcases d1 a ha with h | h
    · exact Or.inl h
    · exact Or.inr (by rw [h]; rfl)
  | ok vst =>
    obtain ⟨v, st1⟩ := vst
    dsimp only
    have d1 := check_verified_trace_delta o l st
    rw [h1] at d1
    simp only [xresState_ok] at d1
    have step : ∀ a ∈ st1.trace, a ∈ st.trace ∨ opLogin a = some l := by
      intro a ha
      rcases d1 a ha with h | h
      · exact Or.inl h
      · exact Or.inr (by rw [h]; rfl)
    by_cases hp : pyNot v = true
    · rw [if_pos hp]
      cases h2 : verify_user_in_xnat o l st1 with
      | error e =>
        have d2 := verify_trace_delta o l st1
        rw [h2] at d2
        simp only [xresState_error] at d2
        simp only [resultState_error]
        intro a ha
        rcases d2 a ha with h | h
        · exact step a h
        · exact Or.inr (by rw [h]; rfl)
      | ok bst =>
        obtain ⟨b, st2⟩ := bst
        have d2 := verify_trace_delta o l st1
        rw [h2] at d2
        simp only [xresState_ok] at d2
        have step2 : ∀ a ∈ st2.trace, a ∈ st.trace ∨ opLogin a = some l := by
          intro a ha
          rcases d2 a ha with h | h
          · exact step a h
          · exact Or.inr (by rw [h]; rfl)
        cases b with
        | true => simpa using step2
        | false => simpa using step2
    · rw [if_neg hp]
      simpa using step

/-- Any call the enablement block appends to the trace is a
per-participant operation on its login. -/
theorem enabledStage_opLogin (o : Oracle) (l : String) (st : RunState) :
    ∀ a ∈ (resultState (enabledStage o l st)).trace,
      a ∈ st.trace ∨ opLogin a = some l := by
  unfold enabledStage
  cases h1 : check_user_enabled_in_xnat o l st with
  | error e =>
    have d1 := check_enabled_trace_delta o l st
    rw [h1] at d1
    simp only [xresState_error] at d1
    simp only [resultState_error]
    intro a ha
    rcases d1 a ha with h | h
    · exact Or.inl h
    · exact Or.inr (by rw [h]; rfl)
  | ok vst =>
    obtain ⟨v, st1⟩ := vst
    dsimp only
    have d1 := check_enabled_trace_delta o l st
    rw [h1] at d1
    simp only [xresState_ok] at d1
    have step : ∀ a ∈ st1.trace, a ∈ st.trace ∨ opLogin a = some l := by
      intro a ha
      rcases d1 a ha with h | h
      · exact Or.inl h
      · exact Or.inr (by rw [h]; rfl)
    by_cases hp : pyNot v = true
    · rw [if_pos hp]
      cases h2 : enable_user_in_xnat o l st1 with
      | error e =>
        have d2 := enable_trace_delta o l st1
        rw [h2] at d2
        simp only [xresState_error] at d2
        simp only [resultState_error]
        intro a ha
        rcases d2 a ha with h | h
        · exact step a h
        · exact Or.inr (by rw [h]; rfl)
      | ok bst =>
        obtain ⟨b, st2⟩ := bst
        have d2 := enable_trace_delta o l st1
        rw [h2] at d2
        simp only [xresState_ok] at d2
        have step2 : ∀ a ∈ st2.trace, a ∈ st.trace ∨ opLogin a = some l := by
          intro a ha
          rcases d2 a ha with h | h
          · exact step a h
          · exact Or.inr (by rw [h]; rfl)
        cases b with
        | true => simpa using step2
        | false => simpa using step2
    · rw [if_neg hp]
      simpa using step

/-- Any call the membership block appends to the trace is a
per-participant operation on its login. -/
theorem membershipStage_opLogin (o : Oracle) (email : Option String) (cid : Nat)
    (pus : List String) (l : String) (st : RunState) :
    ∀ a ∈ (resultState (membershipStage o email cid pus l st)).trace,
      a ∈ st.trace ∨ opLogin a = some l := by
  unfold membershipStage
  intro a ha
  by_cases hmem : l ∈ pus
  · rw [if_pos hmem] at ha
    exact Or.inl ha
  · rw [if_neg hmem] at ha
    revert ha
    cases ha2 : o.addUser cid l with
    | exn => exact fun ha => Or.inl ha
    | status s =>
      dsimp only
      split
      all_goals
        simp only [resultState_ok]
        intro ha
        rcases List.mem_append.mp ha with h | h
        · exact Or.inl h
        · simp only [List.mem_singleton] at h
          exact Or.inr (by rw [h]; rfl)

theorem project_users_trace_delta (o : Oracle) (cid : Nat) (st : RunState) :
    ∀ a ∈ (xresState (get_user_project_data o cid st)).trace,
      a ∈ st.trace ∨ a = .listProjectUsers cid := by
  cases hc : o.projectUsers cid with
  | exn =>
    simp only [get_user_project_data, hc, xresState_error]
    exact fun a ha => Or.inl ha
  | status s =>
    simp only [get_user_project_data, hc]
    split
    all_goals
      simp only [xresState_ok, pushCall_trace]
      intro a ha
      rcases List.mem_append.mp ha with h | h
      · exact Or.inl h
      · simp only [List.mem_singleton] at h
        exact Or.inr h

theorem create_project_trace_delta (o : Oracle) (xml : ProjectXml) (st : RunState) :
    ∀ a ∈ (resultState (create_project o xml st)).trace,
      a ∈ st.trace ∨ a = .createProject xml.ID xml.secondary_ID xml.name := by
  cases hc : o.createProject xml.ID with
  | exn =>
    simp only [create_project, hc, resultState_error]
    exact fun a ha => Or.inl ha
  | status s =>
    simp only [create_project, hc]
    split
    all_goals
      simp only [resultState_ok, pushCall_trace]
      intro a ha
      rcases List.mem_append.mp ha with h | h
      · exact Or.inl h
      · simp only [List.mem_singleton] at h
        exact Or.inr h

theorem close_trace_delta (o : Oracle) (st : RunState) :
    ∀ a ∈ (resultState (close_connections o st)).trace,
      a ∈ st.trace ∨ a = .closeSession := by
  cases hc : o.close with
  | exn =>
    simp only [close_connections, hc, resultState_error]
    exact fun a ha => Or.inl ha
  | status s =>
    simp only [close_connections, hc, resultState_ok, pushCall_trace]
    intro a ha
    rcases List.mem_append.mp ha with h | h
    · exact Or.inl h
    · simp only [List.mem_singleton] at h
      exact Or.inr h

/-- Any call `process_participant` appends to the trace is a
per-participant operation on the participant's own login. -/
theorem process_trace_guard (o : Oracle) (p : Participant) (cid : Nat)
    (pus : List String) (st0 : RunState) (l : String) (hl : p.login_id = some l) :
    ∀ a ∈ (resultState (process_participant o p cid pus st0)).trace,
      a ∈ st0.trace ∨ opLogin a = some l := by
  simp only [process_participant, hl]
  by_cases h0 : l = ""
  · rw [if_pos h0]
    exact fun a ha => Or.inl ha
  · rw [if_neg h0]
    cases h1 : verifiedStage o l { st0 with processed := st0.processed + 1 } with
    | error e =>
      have d1 := verifiedStage_opLogin o l { st0 with processed := st0.processed + 1 }
      rw [h1] at d1
      simp only [resultState_error] at d1
      exact fun a ha => d1 a ha
    | ok st1 =>
      have d1 := verifiedStage_opLogin o l { st0 with processed := st0.processed + 1 }
      rw [h1] at d1
      simp only [resultState_ok] at d1
      dsimp only
      cases h2 : enabledStage o l st1 with
      | error e =>
        have d2 := enabledStage_opLogin o l st1
        rw [h2] at d2
        simp only [resultState_error] at d2
        simp only [resultState_error]
        intro a ha
        rcases d2 a ha with h | h
        · exact d1 a h
        · exact Or.inr h
      | ok st2 =>
        have d2 := enabledStage_opLogin o l st1
        rw [h2] at d2
        simp only [resultState_ok] at d2
        dsimp only
        intro a ha
        rcases membershipStage_opLogin o p.email cid pus l st2 a ha with h | h
        · rcases d2 a h with h' | h'
          · exact d1 a h'
          · exact Or.inr h'
        · exact Or.inr h

/-- Any call the participant loop appends to the trace is a
per-participant operation on a login present in the directory. -/
theorem participants_phase_guard (o : Oracle) (cid : Nat) (users pus : List String)
    (ps : List Participant) (st : RunState) :
    ∀ a ∈ (resultState (participants_phase o cid users pus ps st)).trace,
      a ∈ st.trace ∨ ∀ l2, opLogin a = some l2 → l2 ∈ users := by
  induction ps generalizing st with
  | nil => exact fun a ha => Or.inl ha
  | cons p rest ih =>
    cases hlp : p.login_id with
    | none =>
      simp only [participants_phase, hlp]
      exact ih st
    | some l =>
      simp only [participants_phase, hlp]
      by_cases hlu : l ∈ users
      · rw [if_pos hlu]
        cases hp : process_participant o p cid pus st with
        | error e =>
          have d := process_trace_guard o p cid pus st l hlp
          rw [hp] at d
          simp only [resultState_error] at d
          intro a ha
          rcases d a ha with h | h
          · exact Or.inl h
          · refine Or.inr (fun l2 h2 => ?_)
            rw [h] at h2
            injection h2 with hh
            rw [← hh]
            exact hlu
        | ok st1 =>
          have d := process_trace_guard o p cid pus st l hlp
          rw [hp] at d
          simp only [resultState_ok] at d
          dsimp only
          intro a ha
          rcases ih st1 a ha with h | h
          · rcases d a h with h' | h'
            · exact Or.inl h'
            · refine Or.inr (fun l2 h2 => ?_)
              rw [h'] at h2
              injection h2 with hh
              rw [← hh]
              exact hlu
          · exact Or.inr h
      · rw [if_neg hlu]
        exact ih st

/-- Any call the course loop appends to the trace is either a membership
list fetch or a per-participant operation on a directory login. -/
theorem course_phase_guard (o : Oracle) (canvas : CanvasState) (users : List String)
    (cids : List Nat) (st : RunState) :
    ∀ a ∈ (resultState (course_phase o canvas users cids st)).trace,
      a ∈ st.trace ∨ ∀ l2, opLogin a = some l2 → l2 ∈ users := by
  induction cids generalizing st with
  | nil => exact fun a ha => Or.inl ha
  | cons cid rest ih =>
    simp only [course_phase]
    cases hg : get_user_project_data o cid st with
    | error e =>
      have d := project_users_trace_delta o cid st
      rw [hg] at d
      simp only [xresState_error] at d
      intro a ha
      rcases d a ha with h | h
      · exact Or.inl h
      · refine Or.inr (fun l2 h2 => ?_)
        rw [h] at h2
        simp [opLogin] at h2
    | ok pst =>
      obtain ⟨pus, st1⟩ := pst
      have d := project_users_trace_delta o cid st
      rw [hg] at d
      simp only [xresState_ok] at d
      dsimp only
      cases hpp : participants_phase o cid users pus (canvas.participants cid) st1 with
      | error e =>
        have d2 := participants_phase_guard o cid users pus (canvas.participants cid) st1
        rw [hpp] at d2
        simp only [resultState_error] at d2
        simp only [resultState_error]
        intro a ha
        rcases d2 a ha with h | h
        · rcases d a h with h' | h'
          · exact Or.inl h'
          · refine Or.inr (fun l2 h2 => ?_)
            rw [h'] at h2
            simp [opLogin] at h2
        · exact Or.inr h
      | ok st2 =>
        have d2 := participants_phase_guard o cid users pus (canvas.participants cid) st1
        rw [hpp] at d2
        simp only [resultState_ok] at d2
        dsimp only
        intro a ha
        rcases ih st2 a ha with h | h
        · rcases d2 a h with h' | h'
          · rcases d a h' with h'' | h''
            · exact Or.inl h''
            · refine Or.inr (fun l2 h2 => ?_)
              rw [h''] at h2
              simp [opLogin] at h2
          · exact Or.inr h'
        · exact Or.inr h

/-- Any call the project-bootstrap loop appends to the trace is a
create-project POST (never a per-participant operation). -/
theorem create_phase_guard (o : Oracle) (ids : List Nat) (names : List String)
    (pids : List String) (cids : List Nat) (st : RunState) :
    ∀ a ∈ (resultState (create_projects_phase o ids names pids cids st)).trace,
      a ∈ st.trace ∨ opLogin a = none := by
  induction cids generalizing st with
  | nil => exact fun a ha => Or.inl ha
  | cons cid rest ih =>
    simp only [create_projects_phase]
    by_cases hin : toString cid ∈ pids
    · rw [if_pos hin]
      exact ih st
    · rw [if_neg hin]
      cases hnm : names.get? (listIndexOf cid ids) with
      | none => exact fun a ha => Or.inl ha
      | some nm =>
        dsimp only
        cases hcp : create_project o (create_xml cid nm)
            { st with log := st.log ++ [.infoCreating (toString cid) nm] } with
        | error e =>
          have d := create_project_trace_delta o (create_xml cid nm)
            { st with log := st.log ++ [.infoCreating (toString cid) nm] }
          rw [hcp] at d
          simp only [resultState_error] at d
          intro a ha
          rcases d a ha with h | h
          · exact Or.inl h
          · exact Or.inr (by rw [h]; rfl)
        | ok st1 =>
          have d := create_project_trace_delta o (create_xml cid nm)
            { st with log := st.log ++ [.infoCreating (toString cid) nm] }
          rw [hcp] at d
          simp only [resultState_ok] at d
          intro a ha
          rcases ih st1 a ha with h | h
          · rcases d a h with h' | h'
            · exact Or.inl h'
            · exact Or.inr (by rw [h']; rfl)
          · exact Or.inr h

/-- Trace guard for the tail of the run (project bootstrap, course loop,
summary, teardown): every per-participant operation it appends targets a
directory login. -/
theorem tail_guard (o : Oracle) (canvas : CanvasState) (course_ids : List Nat)
    (course_names : List String) (project_ids : List String) (xu : List String)
    (st : RunState)
    (hst : ∀ a ∈ st.trace, ∀ l2, opLogin a = some l2 → l2 ∈ xu) :
    ∀ a ∈ (resultState (
      match create_projects_phase o course_ids course_names project_ids course_ids st with
      | .error e => .error e
      | .ok st =>
        match course_phase o canvas xu course_ids st with
        | .error e => .error e
        | .ok st =>
          close_connections o { st with log := st.log ++
            [.summary st.processed st.verified_count st.enabled_count
              st.added_to_project_count] })).trace,
      ∀ l2, opLogin a = some l2 → l2 ∈ xu := by
  cases hc1 : create_projects_phase o course_ids course_names project_ids course_ids st with
  | error e =>
    have d1 := create_phase_guard o course_ids course_names project_ids course_ids st
    rw [hc1] at d1
    simp only [resultState_error] at d1
    intro a ha l2 h2
    rcases d1 a ha with h | h
    · exact hst a h l2 h2
    · rw [h] at h2
      exact Option.noConfusion h2
  | ok st1 =>
    have d1 := create_phase_guard o course_ids course_names project_ids course_ids st
    rw [hc1] at d1
    simp only [resultState_ok] at d1
    have hst1 : ∀ a ∈ st1.trace, ∀ l2, opLogin a = some l2 → l2 ∈ xu := by
      intro a ha l2 h2
      rcases d1 a ha with h | h
      · exact hst a h l2 h2
      · rw [h] at h2
        exact Option.noConfusion h2
    dsimp only
    cases hc2 : course_phase o canvas xu course_ids st1 with
    | error e =>
      have d2 := course_phase_guard o canvas xu course_ids st1
      rw [hc2] at d2
      simp only [resultState_error] at d2
      simp only [resultState_error]
      intro a ha l2 h2
      rcases d2 a ha with h | h
      · exact hst1 a h l2 h2
      · exact h l2 h2
    | ok st2 =>
      have d2 := course_phase_guard o canvas xu course_ids st1
      rw [hc2] at d2
      simp only [resultState_ok] at d2
      have hst2 : ∀ a ∈ st2.trace, ∀ l2, opLogin a = some l2 → l2 ∈ xu := by
        intro a ha l2 h2
        rcases d2 a ha with h | h
        · exact hst1 a h l2 h2
        · exact h l2 h2
      dsimp only
      intro a ha l2 h2
      have d3 := close_trace_delta o { st2 with log := st2.log ++
        [.summary st2.processed st2.verified_count st2.enabled_count
          st2.added_to_project_count] }
      rcases d3 a ha with h | h
      · exact hst2 a h l2 h2
      · rw [h] at h2
        exact Option.noConfusion h2

/-- Trace guard from the user-directory fetch onward. -/
theorem users_step_guard (o : Oracle) (canvas : CanvasState) (course_ids : List Nat)
    (course_names : List String) (project_ids : List String) (xu : List String)
    (st0 : RunState) (hxu : st0.xnat.users = xu)
    (hst : ∀ a ∈ st0.trace, ∀ l2, opLogin a = some l2 → l2 ∈ xu) :
    ∀ a ∈ (resultState (
      match get_users_in_xnat o st0 with
      | .error e => .error e
      | .ok (usersOpt, st) =>
        let st := { st with log := st.log ++ [.infoStartedCourses course_ids.length] }
        match usersOpt with
        | none => .error (.lenOfNone, st)
        | some xnat_users =>
          let st := { st with log := st.log ++ [.infoUserList xnat_users.length] }
          match create_projects_phase o course_ids course_names project_ids course_ids st with
          | .error e => .error e
          | .ok st =>
            match course_phase o canvas xnat_users course_ids st with
            | .error e => .error e
            | .ok st =>
              let st := { st with log := st.log ++
                [.summary st.processed st.verified_count st.enabled_count
                  st.added_to_project_count] }
              close_connections o st)).trace,
      ∀ l2, opLogin a = some l2 → l2 ∈ xu := by
  cases hu : o.users with
  | exn =>
    simp only [get_users_in_xnat, hu, resultState_error]
    exact hst
  | status su =>
    simp only [get_users_in_xnat, hu]
    have hstU : ∀ a ∈ (pushCall st0 .listUsers su).trace,
        ∀ l2, opLogin a = some l2 → l2 ∈ xu := by
      intro a ha l2 h2
      rcases List.mem_append.mp ha with h | h
      · exact hst a h l2 h2
      · simp only [List.mem_singleton] at h
        rw [h] at h2
        exact Option.noConfusion h2
    by_cases hok : respOk su = true
    · rw [if_pos hok]
      dsimp only
      simp only [pushCall_xnat, hxu]
      exact tail_guard o canvas course_ids course_names project_ids xu _ hstU
    · rw [if_neg hok]
      dsimp only
      simp only [resultState_error]
      exact hstU

/-- Trace guard from the project-id fetch onward. -/
theorem projects_step_guard (o : Oracle) (canvas : CanvasState) (course_ids : List Nat)
    (course_names : List String) (xu : List String)
    (st0 : RunState) (hxu : st0.xnat.users = xu)
    (hst : ∀ a ∈ st0.trace, ∀ l2, opLogin a = some l2 → l2 ∈ xu) :
    ∀ a ∈ (resultState (
      match get_project_ids_list o st0 with
      | .error e => .error e
      | .ok (project_ids, st) =>
        match get_users_in_xnat o st with
        | .error e => .error e
        | .ok (usersOpt, st) =>
          let st := { st with log := st.log ++ [.infoStartedCourses course_ids.length] }
          match usersOpt with
          | none => .error (.lenOfNone, st)
          | some xnat_users =>
            let st := { st with log := st.log ++ [.infoUserList xnat_users.length] }
            match create_projects_phase o course_ids course_names project_ids course_ids st with
            | .error e => .error e
            | .ok st =>
              match course_phase o canvas xnat_users course_ids st with
              | .error e => .error e
              | .ok st =>
                let st := { st with log := st.log ++
                  [.summary st.processed st.verified_count st.enabled_count
                    st.added_to_project_count] }
                close_connections o st)).trace,
      ∀ l2, opLogin a = some l2 → l2 ∈ xu := by
  cases hpj : o.projects with
  | exn =>
    simp only [get_project_ids_list, hpj, resultState_error]
    exact hst
  | status sp =>
    simp only [get_project_ids_list, hpj]
    have hstP : ∀ a ∈ (pushCall st0 .listProjects sp).trace,
        ∀ l2, opLogin a = some l2 → l2 ∈ xu := by
      intro a ha l2 h2
      rcases List.mem_append.mp ha with h | h
      · exact hst a h l2 h2
      · simp only [List.mem_singleton] at h
        rw [h] at h2
        exact Option.noConfusion h2
    cases hparse : o.projectsParses with
    | false =>
      simp only [hparse, Bool.false_eq_true, if_false]
      simp only [resultState_error]
      exact hstP
    | true =>
      simp only [hparse, if_true]
      by_cases hsp : sp = 200
      · rw [if_pos hsp]
        dsimp only
        exact users_step_guard o canvas course_ids course_names _ xu _ hxu hstP
      · rw [if_neg hsp]
        dsimp only
        exact users_step_guard o canvas course_ids course_names _ xu _ hxu hstP

/-- Under any oracle, every per-participant operation in a full run's trace
targets a login present in the account directory fetched at run start. -/
theorem execute_trace_guard (o : Oracle) (canvas : CanvasState) (x : XnatState) :
    ∀ a ∈ (resultState (execute_integration o canvas (initRun x))).trace,
      ∀ l2, opLogin a = some l2 → l2 ∈ x.users := by
  unfold execute_integration
  cases ht : o.token with
  | exn =>
    simp only [get_user_token, ht, resultState_error]
    intro a ha
    simp [initRun] at ha
  | status ts =>
    simp only [get_user_token, ht]
    have hstT : ∀ a ∈ (pushCall (initRun x) .acquireToken ts).trace,
        ∀ l2, opLogin a = some l2 → l2 ∈ x.users := by
      intro a ha l2 h2
      simp only [pushCall_trace, initRun, List.nil_append, List.mem_singleton] at ha
      rw [ha] at h2
      exact Option.noConfusion h2
    by_cases hok : respOk ts = true
    · rw [if_pos hok]
      dsimp only
      simp only [get_canvas_courses]
      exact projects_step_guard o canvas _ _ x.users _ rfl hstT
    · rw [if_neg hok]
      dsimp only
      simp only [get_canvas_courses]
      exact projects_step_guard o canvas _ _ x.users _ rfl hstT

/-- C3: for every participant whose loginId is absent from the archive
account directory fetched at run start, the engine invokes no
per-participant archive operation at all for that login — no
verified/enabled status check, no verify or enable PUT, and no
add-to-project call — under any service behaviour. -/
theorem C3_absent_login_untouched (o : Oracle) (canvas : CanvasState) (x : XnatState)
    (l : String) (hl : l ∉ x.users) :
    ∀ a ∈ (resultState (execute_integration o canvas (initRun x))).trace,
      opLogin a ≠ some l := by
  intro a ha h2
  exact hl (execute_trace_guard o canvas x a ha l h2)

/-- Witness for C3: in the concrete run, the roster participant `"ghost"`
is absent from the directory and no trace entry targets it. -/
theorem C3_absent_login_untouched_witness :
    "ghost" ∉ xW.users ∧
    ∀ a ∈ (resultState (execute_integration allOk canvasW (initRun xW))).trace,
      opLogin a ≠ some "ghost" :=
  ⟨by decide, C3_absent_login_untouched allOk canvasW xW "ghost" (by decide)⟩

/-- A failed (non-ok) verified-status check yields Python `None`, which is
falsy, so the verify PUT is issued anyway: the verification block returns
normally with the PUT in its trace. -/
theorem verifiedStage_failed_check (o : Oracle) (l : String) (st : RunState) (s : Nat)
    (hc : o.checkVerified l = .status s) (hs : respOk s = false)
    (hv : o.putVerify l ≠ .exn) :
    ∃ st', verifiedStage o l st = .ok st' ∧ ApiCall.putVerify l ∈ st'.trace ∧
      ∀ a ∈ st.trace, a ∈ st'.trace := by
  unfold verifiedStage
  simp only [check_user_verified_in_xnat, hc, hs, Bool.false_eq_true, if_false]
  simp only [pyNot_none, if_true]
  cases hpv : o.putVerify l with
  | exn => exact absurd hpv hv
  | status s2 =>
    simp only [verify_user_in_xnat, hpv]
    by_cases h200 : s2 = 200
    · rw [if_pos h200]
      dsimp only
      rw [if_pos rfl]
      refine ⟨_, rfl, ?_, ?_⟩
      · simp
      · intro a ha
        simp only [pushCall_trace, List.mem_append]
        exact Or.inl (Or.inl ha)
    · rw [if_neg h200]
      dsimp only
      rw [if_neg (by simp)]
      refine ⟨_, rfl, ?_, ?_⟩
      · simp
      · intro a ha
        simp only [pushCall_trace, List.mem_append]
        exact Or.inl (Or.inl ha)

/-- A failed (non-ok) enabled-status check yields Python `None`, which is
falsy, so the enable PUT is issued anyway. -/
theorem enabledStage_failed_check (o : Oracle) (l : String) (st : RunState) (s : Nat)
    (hc : o.checkEnabled l = .status s) (hs : respOk s = false)
    (hv : o.putEnable l ≠ .exn) :
    ∃ st', enabledStage o l st = .ok st' ∧ ApiCall.putEnable l ∈ st'.trace ∧
      ∀ a ∈ st.trace, a ∈ st'.trace := by
  unfold enabledStage
  simp only [check_user_enabled_in_xnat, hc, hs, Bool.false_eq_true, if_false]
  simp only [pyNot_none, if_true]
  cases hpv : o.putEnable l with
  | exn => exact absurd hpv hv
  | status s2 =>
    simp only [enable_user_in_xnat, hpv]
    by_cases h200 : s2 = 200
    · rw [if_pos h200]
      dsimp only
      rw [if_pos rfl]
      refine ⟨_, rfl, ?_, ?_⟩
      · simp
      · intro a ha
        simp only [pushCall_trace, List.mem_append]
        exact Or.inl (Or.inl ha)
    · rw [if_neg h200]
      dsimp only
      rw [if_neg (by simp)]
      refine ⟨_, rfl, ?_, ?_⟩
      · simp
      · intro a ha
        simp only [pushCall_trace, List.mem_append]
        exact Or.inl (Or.inl ha)

/-- When neither its check nor its PUT raises, the verification block
returns normally and only extends the trace. -/
theorem verifiedStage_completes (o : Oracle) (l : String) (st : RunState)
    (hc : o.checkVerified l ≠ .exn) (hv : o.putVerify l ≠ .exn) :
    ∃ st', verifiedStage o l st = .ok st' ∧ ∀ a ∈ st.trace, a ∈ st'.trace := by
  unfold verifiedStage
  cases hcc : o.checkVerified l with
  | exn => exact absurd hcc hc
  | status s =>
    simp only [check_user_verified_in_xnat, hcc]
    by_cases hok : respOk s = true
    · rw [if_pos hok]
      dsimp only
      simp only [pushCall_xnat, pyNot_some]
      by_cases hb : st.xnat.verified l = true
      · rw [if_neg (by simp [hb])]
        exact ⟨_, rfl, fun a ha => List.mem_append_left _ ha⟩
      · have hb2 : st.xnat.verified l = false := by
          revert hb
          cases st.xnat.verified l <;> simp
        rw [if_pos (by simp [hb2])]
        cases hpv : o.putVerify l with
        | exn => exact absurd hpv hv
        | status s2 =>
          simp only [verify_user_in_xnat, hpv]
          by_cases h200 : s2 = 200
          · rw [if_pos h200]
            dsimp only
            rw [if_pos rfl]
            refine ⟨_, rfl, fun a ha => ?_⟩
            simp only [pushCall_trace, List.mem_append]
            exact Or.inl (Or.inl ha)
          · rw [if_neg h200]
            dsimp only
            rw [if_neg (by simp)]
            refine ⟨_, rfl, fun a ha => ?_⟩
            simp only [pushCall_trace, List.mem_append]
            exact Or.inl (Or.inl ha)
    · rw [if_neg hok]
      dsimp only
      simp only [pyNot_none]
      rw [if_pos trivial]
      cases hpv : o.putVerify l with
      | exn => exact absurd hpv hv
      | status s2 =>
        simp only [verify_user_in_xnat, hpv]
        by_cases h200 : s2 = 200
        · rw [if_pos h200]
          dsimp only
          rw [if_pos rfl]
          refine ⟨_, rfl, fun a ha => ?_⟩
          simp only [pushCall_trace, List.mem_append]
          exact Or.inl (Or.inl ha)
        · rw [if_neg h200]
          dsimp only
          rw [if_neg (by simp)]
          refine ⟨_, rfl, fun a ha => ?_⟩
          simp only [pushCall_trace, List.mem_append]
          exact Or.inl (Or.inl ha)

/-- The enablement block (raise or return) only extends the trace. -/
theorem enabledStage_trace_mono (o : Oracle) (l : String) (st : RunState) :
    ∀ a ∈ st.trace, a ∈ (resultState (enabledStage o l st)).trace := by
  unfold enabledStage
  cases h1 : check_user_enabled_in_xnat o l st with
  | error e =>
    have m := check_enabled_trace_mono o l st
    rw [h1] at m
    simpa using m
  | ok vst =>
    obtain ⟨v, st1⟩ := vst
    dsimp only
    have m1 := check_enabled_trace_mono o l st
    rw [h1] at m1
    simp only [xresState_ok] at m1
    by_cases hp : pyNot v = true
    · rw [if_pos hp]
      cases h2 : enable_user_in_xnat o l st1 with
      | error e =>
        have m2 := enable_trace_mono o l st1
        rw [h2] at m2
        simp only [xresState_error] at m2
        simp only [resultState_error]
        exact fun a ha => m2 a (m1 a ha)
      | ok bst =>
        obtain ⟨b, st2⟩ := bst
        dsimp only
        have m2 := enable_trace_mono o l st1
        rw [h2] at m2
        simp only [xresState_ok] at m2
        cases b with
        | true =>
          rw [if_pos rfl]
          exact fun a ha => m2 a (m1 a ha)
        | false =>
          rw [if_neg (by simp)]
          exact fun a ha => m2 a (m1 a ha)
    · rw [if_neg hp]
      exact fun a ha => m1 a ha

/-- The membership block (raise or return) only extends the trace. -/
theorem membershipStage_trace_mono (o : Oracle) (email : Option String) (cid : Nat)
    (pus : List String) (l : String) (st : RunState) :
    ∀ a ∈ st.trace, a ∈ (resultState (membershipStage o email cid pus l st)).trace := by
  unfold membershipStage
  by_cases hmem : l ∈ pus
  · rw [if_pos hmem]
    exact fun a ha => ha
  · rw [if_neg hmem]
    cases ha2 : o.addUser cid l with
    | exn => exact fun a ha => ha
    | status s =>
      dsimp only
      split
      all_goals
        simp only [resultState_ok]
        exact fun a ha => List.mem_append_left _ ha

/-- C10: for every participant reaching per-participant processing, a
failed verified-status (resp. enabled-status) query — a completed response
with a non-ok status, yielding `None` — is treated like a false status: the
engine issues the corrective verify (resp. enable) PUT anyway instead of
skipping the participant. -/
theorem C10_failed_status_check :
    (∀ (o : Oracle) (p : Participant) (cid : Nat) (pus : List String) (st : RunState)
        (l : String) (s : Nat),
      p.login_id = some l → l ≠ "" →
      o.checkVerified l = .status s → respOk s = false → o.putVerify l ≠ .exn →
      ApiCall.putVerify l ∈ (resultState (process_participant o p cid pus st)).trace) ∧
    (∀ (o : Oracle) (p : Participant) (cid : Nat) (pus : List String) (st : RunState)
        (l : String) (s : Nat),
      p.login_id = some l → l ≠ "" →
      o.checkVerified l ≠ .exn → o.putVerify l ≠ .exn →
      o.checkEnabled l = .status s → respOk s = false → o.putEnable l ≠ .exn →
      ApiCall.putEnable l ∈ (resultState (process_participant o p cid pus st)).trace) := by
  constructor
  · intro o p cid pus st l s hl h0 hc hs hv
    simp only [process_participant, hl]
    rw [if_neg h0]
    obtain ⟨st1, heq1, hput, -⟩ := verifiedStage_failed_check o l
      { st with processed := st.processed + 1 } s hc hs hv
    rw [heq1]
    dsimp only
    cases h2 : enabledStage o l st1 with
    | error e =>
      have m := enabledStage_trace_mono o l st1
      rw [h2] at m
      simp only [resultState_error] at m ⊢
      exact m _ hput
    | ok st2 =>
      have m := enabledStage_trace_mono o l st1
      rw [h2] at m
      simp only [resultState_ok] at m
      dsimp only
      exact membershipStage_trace_mono o p.email cid pus l st2 _ (m _ hput)
  · intro o p cid pus st l s hl h0 hcv hpv hc hs hv
    simp only [process_participant, hl]
    rw [if_neg h0]
    obtain ⟨st1, heq1, -⟩ := verifiedStage_completes o l
      { st with processed := st.processed + 1 } hcv hpv
    rw [heq1]
    dsimp only
    obtain ⟨st2, heq2, hput, -⟩ := enabledStage_failed_check o l st1 s hc hs hv
    rw [heq2]
    dsimp only
    exact membershipStage_trace_mono o p.email cid pus l st2 _ hput

/-- Witness for C10: with a 500 on the respective status check, the
corrective PUT for `"jdoe"` appears in the trace. -/
theorem C10_failed_status_check_witness :
    ApiCall.putVerify "jdoe" ∈
      (resultState (process_participant oC10 pW 5 [] (initRun xW))).trace ∧
    ApiCall.putEnable "jdoe" ∈
      (resultState (process_participant oC10e pW 5 [] (initRun xW))).trace :=
  ⟨C10_failed_status_check.1 oC10 pW 5 [] (initRun xW) "jdoe" 500
      rfl (by decide) rfl (by decide) (by decide),
   C10_failed_status_check.2 oC10e pW 5 [] (initRun xW) "jdoe" 500
      rfl (by decide) (by decide) (by decide) rfl (by decide) (by decide)⟩

/-- Counterexample to C4 as stated: in a full run over `canvasC4`/`xC4`,
the empty-login participant is filtered out by the directory guard at line
351 (`participant['login_id'] in xnat_users` is false for `""`), so
`processed` is never incremented and no pending-status warning is logged —
the claim asserts `processed` increments and a warning is emitted. -/
theorem C4_counterexample :
    (resultState (execute_integration allOk canvasC4 (initRun xC4))).processed = 0 ∧
    LogEvent.pendingWarning "Pending P" ∉
      (resultState (execute_integration allOk canvasC4 (initRun xC4))).log := by
  decide

/-- C4 (amended): for every participant with an empty loginId that reaches
per-participant processing (i.e. whose empty login passes the directory
guard — `process_participant` is invoked on it), the engine increments
`processed`, logs the pending warning, and changes nothing else: no
verified/enabled/addedToProject counter, no trace entry, no external
state. -/
theorem C4_empty_login_amended (o : Oracle) (p : Participant) (cid : Nat)
    (pus : List String) (st : RunState) (hl : p.login_id = some "") :
    process_participant o p cid pus st = .ok { st with
      processed := st.processed + 1,
      log := st.log ++ [.pendingWarning p.name] } := by
  simp only [process_participant, hl]
  rw [if_pos trivial]

/-- Witness for the amended C4: invoking `process_participant` on the
empty-login participant increments `processed`, logs the warning, and
leaves counters, trace and external state unchanged. -/
theorem C4_empty_login_amended_witness :
    process_participant allOk pEmptyW 1 [] (initRun xC4) =
      .ok { initRun xC4 with
            processed := (initRun xC4).processed + 1,
            log := (initRun xC4).log ++ [.pendingWarning pEmptyW.name] } :=
  C4_empty_login_amended allOk pEmptyW 1 [] (initRun xC4) rfl

/-- A 200 verified-status check on an already-verified account: the
verification block only records the check. -/
theorem verifiedStage_already (o : Oracle) (l : String) (st : RunState)
    (hc : o.checkVerified l = .status 200) (hv : st.xnat.verified l = true) :
    verifiedStage o l st = .ok (pushCall st (.checkVerified l) 200) := by
  simp only [verifiedStage, check_user_verified_in_xnat, hc, respOk_200, if_true]
  simp only [pushCall_xnat, hv, pyNot_some, Bool.not_true, Bool.false_eq_true, if_false]

/-- A 200 enabled-status check on an already-enabled account. -/
theorem enabledStage_already (o : Oracle) (l : String) (st : RunState)
    (hc : o.checkEnabled l = .status 200) (hv : st.xnat.enabled l = true) :
    enabledStage o l st = .ok (pushCall st (.checkEnabled l) 200) := by
  simp only [enabledStage, check_user_enabled_in_xnat, hc, respOk_200, if_true]
  simp only [pushCall_xnat, hv, pyNot_some, Bool.not_true, Bool.false_eq_true, if_false]

/-- A failing verify PUT (completed, non-200): the verification block
returns normally without incrementing `verified_count` or changing the
external state. -/
theorem verifiedStage_put_fail (o : Oracle) (l : String) (st : RunState) (s : Nat)
    (hc : o.checkVerified l = .status 200) (hv : st.xnat.verified l = false)
    (hp : o.putVerify l = .status s) (hs : s ≠ 200) :
    verifiedStage o l st =
      .ok (pushCall (pushCall st (.checkVerified l) 200) (.putVerify l) s) := by
  simp only [verifiedStage, check_user_verified_in_xnat, hc, respOk_200, if_true]
  simp only [pushCall_xnat, hv, pyNot_some, Bool.not_false, if_true]
  simp only [verify_user_in_xnat, hp]
  rw [if_neg hs]
  dsimp only
  rw [if_neg (by simp)]

/-- A failing enable PUT (completed, non-200). -/
theorem enabledStage_put_fail (o : Oracle) (l : String) (st : RunState) (s : Nat)
    (hc : o.checkEnabled l = .status 200) (hv : st.xnat.enabled l = false)
    (hp : o.putEnable l = .status s) (hs : s ≠ 200) :
    enabledStage o l st =
      .ok (pushCall (pushCall st (.checkEnabled l) 200) (.putEnable l) s) := by
  simp only [enabledStage, check_user_enabled_in_xnat, hc, respOk_200, if_true]
  simp only [pushCall_xnat, hv, pyNot_some, Bool.not_false, if_true]
  simp only [enable_user_in_xnat, hp]
  rw [if_neg hs]
  dsimp only
  rw [if_neg (by simp)]

/-- A login already in the membership snapshot: the membership block is a
no-op. -/
theorem membershipStage_member (o : Oracle) (email : Option String) (cid : Nat)
    (pus : List String) (l : String) (st : RunState) (hm : l ∈ pus) :
    membershipStage o email cid pus l st = .ok st := by
  simp only [membershipStage]
  rw [if_pos hm]

/-- A failing add-to-project PUT (completed, non-200): the membership block
returns normally, does not increment `addedToProject`, and logs the
error-severity add-failure line. -/
theorem membershipStage_add_fail (o : Oracle) (email : Option String) (cid : Nat)
    (pus : List String) (l : String) (st : RunState) (s : Nat)
    (hm : l ∉ pus) (ha : o.addUser cid l = .status s) (hs : s ≠ 200) :
    ∃ st', membershipStage o email cid pus l st = .ok st' ∧
      st'.added_to_project_count = st.added_to_project_count ∧
      st'.xnat = st.xnat ∧
      LogEvent.errorAddFail l cid ∈ st'.log := by
  simp only [membershipStage]
  rw [if_neg hm]
  simp only [ha]
  rw [if_neg hs]
  refine ⟨_, rfl, rfl, rfl, ?_⟩
  simp

/-- C6: a completed-but-failed add-to-project call leaves `addedToProject`
unchanged, produces an error-severity log line, and the loop proceeds to
the next participant; the same not-incremented-and-continue policy holds
for a failing verify PUT, a failing enable PUT, and a failing
create-project POST. -/
theorem C6_failure_logged_and_skipped :
    (∀ (o : Oracle) (p : Participant) (cid : Nat) (users pus : List String)
        (rest : List Participant) (st : RunState) (l : String) (s : Nat),
      p.login_id = some l → l ∈ users → l ≠ "" →
      o.checkVerified l = .status 200 → st.xnat.verified l = true →
      o.checkEnabled l = .status 200 → st.xnat.enabled l = true →
      l ∉ pus → o.addUser cid l = .status s → s ≠ 200 →
      ∃ st', process_participant o p cid pus st = .ok st' ∧
        st'.added_to_project_count = st.added_to_project_count ∧
        LogEvent.errorAddFail l cid ∈ st'.log ∧
        participants_phase o cid users pus (p :: rest) st =
          participants_phase o cid users pus rest st') ∧
    (∀ (o : Oracle) (p : Participant) (cid : Nat) (users pus : List String)
        (rest : List Participant) (st : RunState) (l : String) (s : Nat),
      p.login_id = some l → l ∈ users → l ≠ "" →
      o.checkVerified l = .status 200 → st.xnat.verified l = false →
      o.putVerify l = .status s → s ≠ 200 →
      o.checkEnabled l = .status 200 → st.xnat.enabled l = true →
      l ∈ pus →
      ∃ st', process_participant o p cid pus st = .ok st' ∧
        st'.verified_count = st.verified_count ∧
        participants_phase o cid users pus (p :: rest) st =
          participants_phase o cid users pus rest st') ∧
    (∀ (o : Oracle) (p : Participant) (cid : Nat) (users pus : List String)
        (rest : List Participant) (st : RunState) (l : String) (s : Nat),
      p.login_id = some l → l ∈ users → l ≠ "" →
      o.checkVerified l = .status 200 → st.xnat.verified l = true →
      o.checkEnabled l = .status 200 → st.xnat.enabled l = false →
      o.putEnable l = .status s → s ≠ 200 →
      l ∈ pus →
      ∃ st', process_participant o p cid pus st = .ok st' ∧
        st'.enabled_count = st.enabled_count ∧
        participants_phase o cid users pus (p :: rest) st =
          participants_phase o cid users pus rest st') ∧
    (∀ (o : Oracle) (ids : List Nat) (names pids : List String) (cid : Nat)
        (rest : List Nat) (st : RunState) (nm : String) (s : Nat),
      toString cid ∉ pids → names.get? (listIndexOf cid ids) = some nm →
      o.createProject (toString cid) = .status s → s ≠ 200 →
      ∃ st', create_projects_phase o ids names pids (cid :: rest) st =
          create_projects_phase o ids names pids rest st' ∧
        st'.xnat.projects = st.xnat.projects ∧
        st'.verified_count = st.verified_count ∧
        st'.enabled_count = st.enabled_count ∧
        st'.added_to_project_count = st.added_to_project_count) := by
  refine ⟨?_, ?_, ?_, ?_⟩
  · intro o p cid users pus rest st l s hl hlu h0 hcv hv hce he hm ha hs
    have h1 := verifiedStage_already o l { st with processed := st.processed + 1 } hcv hv
    have h2 := enabledStage_already o l
      (pushCall { st with processed := st.processed + 1 } (.checkVerified l) 200) hce he
    obtain ⟨st', h3, hcount, hx, hlog⟩ := membershipStage_add_fail o p.email cid pus l
      (pushCall (pushCall { st with processed := st.processed + 1 }
        (.checkVerified l) 200) (.checkEnabled l) 200) s hm ha hs
    have hproc : process_participant o p cid pus st = .ok st' := by
      simp only [process_participant, hl]
      rw [if_neg h0, h1]
      dsimp only
      rw [h2]
      dsimp only
      exact h3
    refine ⟨st', hproc, ?_, hlog, ?_⟩
    · rw [hcount]
      rfl
    · simp only [participants_phase, hl]
      rw [if_pos hlu, hproc]
  · intro o p cid users pus rest st l s hl hlu h0 hcv hv hpv hs hce he hm
    have h1 := verifiedStage_put_fail o l { st with processed := st.processed + 1 } s hcv hv hpv hs
    have h2 := enabledStage_already o l
      (pushCall (pushCall { st with processed := st.processed + 1 }
        (.checkVerified l) 200) (.putVerify l) s) hce he
    have h3 := membershipStage_member o p.email cid pus l
      (pushCall (pushCall (pushCall { st with processed := st.processed + 1 }
        (.checkVerified l) 200) (.putVerify l) s) (.checkEnabled l) 200) hm
    have hproc : process_participant o p cid pus st =
        .ok (pushCall (pushCall (pushCall { st with processed := st.processed + 1 }
          (.checkVerified l) 200) (.putVerify l) s) (.checkEnabled l) 200) := by
      simp only [process_participant, hl]
      rw [if_neg h0, h1]
      dsimp only
      rw [h2]
      dsimp only
      exact h3
    refine ⟨_, hproc, rfl, ?_⟩
    simp only [participants_phase, hl]
    rw [if_pos hlu, hproc]
  · intro o p cid users pus rest st l s hl hlu h0 hcv hv hce he hpe hs hm
    have h1 := verifiedStage_already o l { st with processed := st.processed + 1 } hcv hv
    have h2 := enabledStage_put_fail o l
      (pushCall { st with processed := st.processed + 1 } (.checkVerified l) 200) s hce he hpe hs
    have h3 := membershipStage_member o p.email cid pus l
      (pushCall (pushCall (pushCall { st with processed := st.processed + 1 }
        (.checkVerified l) 200) (.checkEnabled l) 200) (.putEnable l) s) hm
    have hproc : process_participant o p cid pus st =
        .ok (pushCall (pushCall (pushCall { st with processed := st.processed + 1 }
          (.checkVerified l) 200) (.checkEnabled l) 200) (.putEnable l) s) := by
      simp only [process_participant, hl]
      rw [if_neg h0, h1]
      dsimp only
      rw [h2]
      dsimp only
      exact h3
    refine ⟨_, hproc, rfl, ?_⟩
    simp only [participants_phase, hl]
    rw [if_pos hlu, hproc]
  · intro o ids names pids cid rest st nm s hin hnm hcp hs
    simp only [create_projects_phase]
    rw [if_neg hin, hnm]
    dsimp only
    have hc : create_project o (create_xml cid nm)
        { st with log := st.log ++ [.infoCreating (toString cid) nm] } =
        .ok (pushCall { st with log := st.log ++ [.infoCreating (toString cid) nm] }
          (.createProject (toString cid) (toString cid) nm) s) := by
      simp only [create_project, create_xml, hcp]
      rw [if_neg hs]
    rw [hc]
    exact ⟨_, rfl, rfl, rfl, rfl, rfl⟩

/-- Witness for C6 (the stated scenario): `addMember` fails with 403 for a
verified and enabled participant; `addedToProject` stays unchanged, the
error line is logged, and the loop continues with the remaining
participants. -/
theorem C6_failure_logged_and_skipped_witness :
    ∃ st', process_participant oC6 pW 7 [] (initRun xC6) = .ok st' ∧
      st'.added_to_project_count = (initRun xC6).added_to_project_count ∧
      LogEvent.errorAddFail "jdoe" 7 ∈ st'.log ∧
      participants_phase oC6 7 ["jdoe"] [] [pW] (initRun xC6) =
        participants_phase oC6 7 ["jdoe"] [] [] st' :=
  C6_failure_logged_and_skipped.1 oC6 pW 7 ["jdoe"] [] [] (initRun xC6) "jdoe" 403
    rfl (by decide) (by decide) rfl rfl rfl rfl (by decide) rfl (by decide)

/-- Counterexample to C9 as stated: a transport exception on a single
participant's verified-status check terminates the whole run (`isCrash`),
and the next participant `"u2"` is never touched — the exception is not
caught at participant or course granularity. -/
theorem C9_counterexample :
    isCrash (execute_integration oC9 canvasC9 (initRun xC9)) = true ∧
    ApiCall.checkVerified "u2" ∉
      (resultState (execute_integration oC9 canvasC9 (initRun xC9))).trace ∧
    (resultState (execute_integration oC9 canvasC9 (initRun xC9))).processed = 1 := by
  decide

/-- The verification block propagates a transport exception raised by the
verified-status check. -/
theorem verifiedStage_check_exn (o : Oracle) (l : String) (st : RunState)
    (hc : o.checkVerified l = .exn) :
    verifiedStage o l st = .error (.requestExn (.checkVerified l), st) := by
  simp only [verifiedStage, check_user_verified_in_xnat, hc]

/-- C9 (amended): the engine has no exception handling at participant or
course granularity. A transport exception in a single participant's
verified-status check aborts `process_participant` with that exception;
the participant loop then aborts without processing the remaining
participants; and the course loop aborts without processing the remaining
courses — the exception unwinds the run. -/
theorem C9_exception_unwinds_run :
    (∀ (o : Oracle) (p : Participant) (cid : Nat) (pus : List String)
        (st : RunState) (l : String),
      p.login_id = some l → l ≠ "" → o.checkVerified l = .exn →
      process_participant o p cid pus st =
        .error (.requestExn (.checkVerified l),
          { st with processed := st.processed + 1 })) ∧
    (∀ (o : Oracle) (p : Participant) (cid : Nat) (users pus : List String)
        (rest : List Participant) (st : RunState) (l : String)
        (E : PyErr × RunState),
      p.login_id = some l → l ∈ users →
      process_participant o p cid pus st = .error E →
      participants_phase o cid users pus (p :: rest) st = .error E) ∧
    (∀ (o : Oracle) (canvas : CanvasState) (users : List String) (cid : Nat)
        (rest : List Nat) (st : RunState) (pus : List String) (st1 : RunState)
        (E : PyErr × RunState),
      get_user_project_data o cid st = .ok (pus, st1) →
      participants_phase o cid users pus (canvas.participants cid) st1 = .error E →
      course_phase o canvas users (cid :: rest) st = .error E) := by
  refine ⟨?_, ?_, ?_⟩
  · intro o p cid pus st l hl h0 hc
    simp only [process_participant, hl]
    rw [if_neg h0, verifiedStage_check_exn o l _ hc]
  · intro o p cid users pus rest st l E hl hlu hproc
    simp only [participants_phase, hl]
    rw [if_pos hlu, hproc]
  · intro o canvas users cid rest st pus st1 E hget hpp
    simp only [course_phase]
    rw [hget]
    dsimp only
    rw [hpp]

/-- Witness for the amended C9: the concrete crashing run of
`C9_counterexample`, reproduced through the amended theorem's clauses. -/
theorem C9_exception_unwinds_run_witness :
    process_participant oC9 { login_id := some "u1", email := some "a@b.c", name := "U1" }
        1 [] (initRun xC9) =
      .error (.requestExn (.checkVerified "u1"),
        { initRun xC9 with processed := (initRun xC9).processed + 1 }) :=
  C9_exception_unwinds_run.1 oC9
    { login_id := some "u1", email := some "a@b.c", name := "U1" }
    1 [] (initRun xC9) "u1" rfl (by decide) (by decide)

theorem logIfError_ne (s : Nat) (log : List LogEvent) (h200 : s ≠ 200) (h204 : s ≠ 204) :
    logIfError s log = log ++ [LogEvent.apiError s] := by
  unfold logIfError
  rw [if_neg]
  rintro (h | h)
  · exact h200 h
  · exact h204 h

/-- C7: when session acquisition fails (transport exception or non-ok
response) and — the session being invalid — the subsequent
session-authenticated archive fetches fail as well, the run crashes before
any per-course operation: no create-project POST and no per-participant or
per-course archive call is ever issued, so the fetched course list is never
acted on. -/
theorem C7_session_failure_fatal (o : Oracle) (canvas : CanvasState) (x : XnatState)
    (htok : o.token = .exn ∨ ∃ s, o.token = .status s ∧ respOk s = false)
    (hproj : o.projects = .exn ∨ o.projectsParses = false ∨
      ∃ s, o.projects = .status s ∧ s ≠ 200)
    (husers : o.users = .exn ∨ ∃ s, o.users = .status s ∧ respOk s = false) :
    isCrash (execute_integration o canvas (initRun x)) = true ∧
    ∀ a ∈ (resultState (execute_integration o canvas (initRun x))).trace,
      isCreateCall a = false ∧ opLogin a = none := by
  unfold execute_integration
  rcases htok with htok | ⟨ts, htok, hts⟩
  · simp only [get_user_token, htok, resultState_error]
    refine ⟨rfl, ?_⟩
    intro a ha
    simp [initRun] at ha
  · simp only [get_user_token, htok]
    rw [if_neg (by rw [hts]; exact Bool.false_ne_true)]
    dsimp only
    simp only [get_canvas_courses]
    rcases hproj3 : o.projects with _ | sp
    case exn =>
      simp only [get_project_ids_list, hproj3, resultState_error]
      refine ⟨rfl, ?_⟩
      intro a ha
      simp only [pushCall_trace, initRun, List.nil_append, List.mem_singleton] at ha
      rw [ha]
      exact ⟨rfl, rfl⟩
    case status =>
      simp only [get_project_ids_list, hproj3]
      cases hparse : o.projectsParses with
      | false =>
        simp only [hparse, Bool.false_eq_true, if_false, resultState_error]
        refine ⟨rfl, ?_⟩
        intro a ha
        simp only [pushCall_trace, initRun, List.nil_append, List.mem_append,
          List.mem_singleton] at ha
        rcases ha with ha | ha <;> rw [ha] <;> exact ⟨rfl, rfl⟩
      | true =>
        have hne : sp ≠ 200 := by
          rcases hproj with h | h | ⟨s2, hs2, hne2⟩
          · rw [hproj3] at h
            exact absurd h (by simp)
          · rw [hparse] at h
            exact absurd h (by simp)
          · rw [hproj3] at hs2
            injection hs2 with hh
            rw [hh]
            exact hne2
        simp only [hparse, if_true]
        rw [if_neg hne]
        dsimp only
        rcases husers with hu | ⟨su, hu, hsu⟩
        · simp only [get_users_in_xnat, hu, resultState_error]
          refine ⟨rfl, ?_⟩
          intro a ha
          simp only [pushCall_trace, initRun, List.nil_append, List.mem_append,
            List.mem_singleton] at ha
          rcases ha with ha | ha <;> rw [ha] <;> exact ⟨rfl, rfl⟩
        · simp only [get_users_in_xnat, hu]
          rw [if_neg (by rw [hsu]; exact Bool.false_ne_true)]
          dsimp only
          simp only [resultState_error]
          refine ⟨rfl, ?_⟩
          intro a ha
          simp only [pushCall_trace, initRun, List.nil_append, List.mem_append,
            List.mem_singleton] at ha
          rcases ha with (ha | ha) | ha <;> rw [ha] <;> exact ⟨rfl, rfl⟩

/-- Witness for C7: with the 401-on-auth oracle, the concrete run crashes
and its trace holds no create-project and no per-participant call. -/
theorem C7_session_failure_fatal_witness :
    isCrash (execute_integration oC7 canvasW (initRun xW)) = true ∧
    ∀ a ∈ (resultState (execute_integration oC7 canvasW (initRun xW))).trace,
      isCreateCall a = false ∧ opLogin a = none :=
  C7_session_failure_fatal oC7 canvasW xW
    (Or.inr ⟨401, rfl, by decide⟩)
    (Or.inr (Or.inr ⟨401, rfl, by decide⟩))
    (Or.inr ⟨401, rfl, by decide⟩)

/-- Counterexample to C8 as stated: when the directory fetch fails, the run
does NOT continue — `len(xnat_users)` at line 330 is applied to `None` and
the run crashes with an unhandled `TypeError`. -/
theorem C8_counterexample :
    isCrash (execute_integration oC8 canvasW (initRun xW)) = true := by
  decide

/-- C8 (amended): if the archive account directory fetch fails (completed,
non-ok response) after a completed session POST and a parsed project-list
response, the failure is logged at error severity by the request wrapper,
no per-participant operation is ever issued, and the run aborts with an
unhandled `TypeError` (`len(None)`, line 330) before the per-course
phase — it does not continue with an empty directory. -/
theorem C8_directory_failure_crashes (o : Oracle) (canvas : CanvasState) (x : XnatState)
    (ts sp su : Nat)
    (htok : o.token = .status ts)
    (hproj : o.projects = .status sp) (hparse : o.projectsParses = true)
    (husers : o.users = .status su) (hsu : respOk su = false) :
    ∃ stf, execute_integration o canvas (initRun x) = .error (.lenOfNone, stf) ∧
      LogEvent.apiError su ∈ stf.log ∧
      ∀ a ∈ stf.trace, opLogin a = none := by
  have h200 : su ≠ 200 := by
    intro h
    rw [h] at hsu
    exact absurd hsu (by decide)
  have h204 : su ≠ 204 := by
    intro h
    rw [h] at hsu
    exact absurd hsu (by decide)
  unfold execute_integration
  simp only [get_user_token, htok]
  by_cases hts : respOk ts = true
  all_goals first
    | rw [if_pos hts]
    | rw [if_neg hts]
  all_goals dsimp only
  all_goals simp only [get_canvas_courses, get_project_ids_list, hproj, hparse, if_true]
  all_goals by_cases hsp : sp = 200
  all_goals first
    | rw [if_pos hsp]
    | rw [if_neg hsp]
  all_goals dsimp only
  all_goals simp only [get_users_in_xnat, husers]
  all_goals rw [if_neg (by rw [hsu]; exact Bool.false_ne_true)]
  all_goals dsimp only
  all_goals refine ⟨_, rfl, ?_, ?_⟩
  all_goals first
    | (simp only [pushCall_log]
       rw [logIfError_ne su _ h200 h204]
       simp)
    | (intro a ha
       simp only [pushCall_trace, initRun, List.nil_append, List.mem_append,
         List.mem_singleton] at ha
       rcases ha with (ha | ha) | ha <;> rw [ha] <;> rfl)

/-- Witness for the amended C8: the concrete crashing run with a 500 on
the directory fetch. -/
theorem C8_directory_failure_crashes_witness :
    ∃ stf, execute_integration oC8 canvasW (initRun xW) = .error (.lenOfNone, stf) ∧
      LogEvent.apiError 500 ∈ stf.log ∧
      ∀ a ∈ stf.trace, opLogin a = none :=
  C8_directory_failure_crashes oC8 canvasW xW 200 200 500 rfl rfl rfl rfl (by decide)

/-- With course ids whose string forms are distinct, the
`course_names[course_ids.index(course_id)]` lookup of line 335 recovers
the course's own name. -/
theorem course_name_lookup (courses : List Course) (c : Course)
    (hnd : (courses.map fun d => toString d.id).Nodup) (hc : c ∈ courses) :
    (courses.map Course.name).get? (listIndexOf c.id (courses.map Course.id)) =
      some c.name := by
  induction courses with
  | nil => cases hc
  | cons d rest ih =>
    simp only [List.map_cons, listIndexOf]
    by_cases hd : d.id = c.id
    · rw [if_pos hd]
      rcases List.mem_cons.mp hc with rfl | hc2
      · rfl
      · exfalso
        have hmem : toString c.id ∈ rest.map (fun d => toString d.id) :=
          List.mem_map.mpr ⟨c, hc2, rfl⟩
        have hni2 : toString c.id ∉ List.map (fun d => toString d.id) rest := by
          have hni := (List.nodup_cons.mp hnd).1
          simpa [hd] using hni
        exact hni2 hmem
    · rw [if_neg hd]
      have hc2 : c ∈ rest := by
        rcases List.mem_cons.mp hc with rfl | hc2
        · exact absurd rfl hd
        · exact hc2
      rw [List.get?_cons_succ]
      exact ih (List.nodup_cons.mp hnd).2 hc2

/-- Exact trace of the project-bootstrap loop under the all-success
oracle: one create-project POST, with both id fields the course id's
string form and the name field the course name, for exactly the courses
missing from the project-id list, in order. -/
theorem create_phase_allOk_trace (courses : List Course) (pids : List String)
    (hnd : (courses.map fun d => toString d.id).Nodup) :
    ∀ (rem : List Course) (st : RunState), (∀ c ∈ rem, c ∈ courses) →
    ∃ st', create_projects_phase allOk (courses.map Course.id) (courses.map Course.name)
        pids (rem.map Course.id) st = .ok st' ∧
      st'.trace = st.trace ++
        (rem.filter fun c => decide (toString c.id ∉ pids)).map
          (fun c => ApiCall.createProject (toString c.id) (toString c.id) c.name) := by
  intro rem
  induction rem with
  | nil =>
    intro st _
    exact ⟨st, rfl, by simp⟩
  | cons c rem2 ih =>
    intro st hsub
    simp only [List.map_cons, create_projects_phase]
    by_cases hin : toString c.id ∈ pids
    · rw [if_pos hin]
      obtain ⟨st', heq, htr⟩ := ih st (fun d hd => hsub d (List.mem_cons_of_mem _ hd))
      refine ⟨st', heq, ?_⟩
      rw [htr]
      simp [List.filter_cons, hin]
    · rw [if_neg hin]
      rw [course_name_lookup courses c hnd (hsub c (List.mem_cons_self _ _))]
      dsimp only
      simp only [create_project_allOk, create_xml]
      obtain ⟨st', heq, htr⟩ := ih _ (fun d hd => hsub d (List.mem_cons_of_mem _ hd))
      refine ⟨st', heq, ?_⟩
      rw [htr]
      simp [List.filter_cons, hin, List.append_assoc]

/-- C5: in an all-success run with distinct course-id strings, the set of
create-project POSTs is exactly one per course whose string-form id is
missing from the archive project-id list, each carrying `ID` and
`secondary_ID` equal to the string form of the course id and `name` equal
to the course name; courses whose id is already present (string-normalized
comparison) trigger no creation. -/
theorem C5_missing_projects_created (canvas : CanvasState) (x : XnatState)
    (hnd : (canvas.courses.map fun c => toString c.id).Nodup) :
    ∃ st', execute_integration allOk canvas (initRun x) = .ok st' ∧
      st'.trace.filter isCreateCall =
        (canvas.courses.filter fun c => decide (toString c.id ∉ x.projects)).map
          (fun c => ApiCall.createProject (toString c.id) (toString c.id) c.name) := by
  obtain ⟨st1, heq1, htr1⟩ := create_phase_allOk_trace canvas.courses x.projects hnd
    canvas.courses (preCreateState canvas x) (fun c hc => hc)
  obtain ⟨st2, heq2, -, -, -, -, -, hf2, -⟩ :=
    course_phase_allOk_sat canvas x.users (canvas.courses.map Course.id) st1
  rw [execute_allOk_eq]
  simp only [heq1]
  simp only [heq2]
  simp only [close_connections_allOk]
  refine ⟨_, rfl, ?_⟩
  simp only [pushCall_trace]
  rw [List.filter_append]
  have hclose : List.filter isCreateCall [ApiCall.closeSession] = [] := rfl
  rw [hclose, List.append_nil]
  have hsummary : ({ st2 with log := st2.log ++
      [LogEvent.summary st2.processed st2.verified_count st2.enabled_count
        st2.added_to_project_count] } : RunState).trace = st2.trace := rfl
  rw [hsummary, hf2, htr1, List.filter_append]
  have hpre : List.filter isCreateCall (preCreateState canvas x).trace = [] := rfl
  rw [hpre, List.nil_append]
  refine List.filter_eq_self.mpr ?_
  intro a ha
  obtain ⟨c, -, rfl⟩ := List.mem_map.mp ha
  rfl

/-- Witness for C5: the concrete course `{id := 100, name := "Radiology"}`
is missing from the empty project list, and the run's create-trace is
exactly its single descriptor POST. -/
theorem C5_missing_projects_created_witness :
    (canvasW.courses.map fun c => toString c.id).Nodup ∧
    ∃ st', execute_integration allOk canvasW (initRun xW) = .ok st' ∧
      st'.trace.filter isCreateCall =
        (canvasW.courses.filter fun c => decide (toString c.id ∉ xW.projects)).map
          (fun c => ApiCall.createProject (toString c.id) (toString c.id) c.name) :=
  ⟨by decide, C5_missing_projects_created canvasW xW (by decide)⟩

end XCI
